import Mathlib

/-!
Verification of the n8n-nodes-zksync repository core: the unit-conversion
module (`src/nodes/ZkSync/utils/unitConverter.ts`) and the incremental
polling / cursor protocol of the trigger node
(`src/nodes/ZkSync/ZkSync.node.ts`, `ZkSyncTrigger.poll`), plus the network
configuration (`src/nodes/ZkSync/constants/networks.ts`) and the
address-validation discipline of `ZkSync.execute`.

Arbitrary-precision JavaScript `bigint` values are modelled as `Int`,
decimal strings as Lean `String`.  The `ethers` numeric-string helpers
`parseUnits` / `formatUnits` (v6 `FixedNumber.fromString` / `.toString`)
are embedded digit-by-digit below; their behaviour is pinned by the
repository's own test-suite expectations
(`convertUnits('1','ether','wei') = '1000000000000000000'`,
 `convertUnits('1000000000000000000','wei','ether') = '1.0'`).
-/

namespace ZkSyncNode

/-! ## Decimal digit machinery (model of bigint decimal rendering/parsing) -/

/-- Value of a little-endian digit list (least significant first). -/
def valLE : List Nat → Nat
  | [] => 0
  | d :: ds => d + 10 * valLE ds

/-- Value of a most-significant-first digit list. -/
def valM (ds : List Nat) : Nat := ds.foldl (fun a d => 10 * a + d) 0

/-- Fuel-driven base-10 digit extraction, little-endian. -/
def digitsAux : Nat → Nat → List Nat
  | 0, _ => []
  | fuel + 1, n => if n = 0 then [] else n % 10 :: digitsAux fuel (n / 10)

/-- Little-endian base-10 digits of `n` (empty for 0). -/
def natDigitsLE (n : Nat) : List Nat := digitsAux n n

/-- Most-significant-first digits of `n` as printed by `toString`
(`[0]` for 0, no leading zeros otherwise). -/
def natDigitsM (n : Nat) : List Nat :=
  if n = 0 then [0] else (natDigitsLE n).reverse

/-- Render one decimal digit as a character. -/
def digitToChar (d : Nat) : Char :=
  match d with
  | 0 => '0' | 1 => '1' | 2 => '2' | 3 => '3' | 4 => '4'
  | 5 => '5' | 6 => '6' | 7 => '7' | 8 => '8' | _ => '9'

/-- Decode a decimal digit character. -/
def charToDigit (c : Char) : Nat := c.toNat - 48

/-- Is `c` one of `'0'`..`'9'`? -/
def isDigitChar (c : Char) : Bool := decide (48 ≤ c.toNat) && decide (c.toNat ≤ 57)

/-- Render a digit list as characters. -/
def renderDigits (ds : List Nat) : List Char := ds.map digitToChar

/-- Decimal string of a JavaScript bigint (`BigInt.prototype.toString`). -/
def bigIntToString (v : Int) : String :=
  ⟨(if v < 0 then ['-'] else []) ++ renderDigits (natDigitsM v.natAbs)⟩

/-- Trailing-zero suppression on a fractional digit block, keeping at least
one digit (the `while (decimal.length > 1 && last === '0')` loop of
ethers `FixedNumber.toString`). -/
def trimFracDigits (l : List Nat) : List Nat :=
  let r := l.reverse.dropWhile (fun d => d == 0)
  if r.isEmpty then [0] else r.reverse

/-- Unsigned part of the ethers v6 `FixedNumber.toString` rendering: the
magnitude's decimal digits, left-padded to more than `decimals` digits,
split into a whole part and a `decimals`-digit fractional part with
trailing zeros suppressed. -/
def formatBodyChars (mag : Nat) (decimals : Nat) : List Char :=
  let ds := natDigitsM mag
  if decimals = 0 then
    renderDigits ds
  else
    let padded := List.replicate (decimals + 1 - ds.length) 0 ++ ds
    let whole := padded.take (padded.length - decimals)
    let frac := padded.drop (padded.length - decimals)
    renderDigits whole ++ '.' :: renderDigits (trimFracDigits frac)

/-- Model of ethers v6 `formatUnits(value, decimals)`: render the scaled
integer `value` as a decimal string with `decimals` fractional digits,
trailing zeros suppressed but at least one fractional digit kept; with
`decimals = 0` the plain integer string is returned. -/
def formatUnits (value : Int) (decimals : Nat) : String :=
  ⟨(if value < 0 then ['-'] else []) ++ formatBodyChars value.natAbs decimals⟩

/-- Model of `ethers.formatEther` (18 decimals). -/
def formatEther (v : Int) : String := formatUnits v 18

/-- Unsigned part of the ethers `FixedNumber.fromString` regex
`([0-9]*)\.?([0-9]*)$` with at least one digit overall.  Returns
(whole digits, fractional digits). -/
def splitDecBody (rest : List Char) : Option (List Char × List Char) :=
  match rest.drop (rest.takeWhile isDigitChar).length with
  | [] =>
      if 0 < (rest.takeWhile isDigitChar).length then
        some (rest.takeWhile isDigitChar, [])
      else none
  | '.' :: f =>
      if f.all isDigitChar && decide (0 < (rest.takeWhile isDigitChar).length + f.length) then
        some (rest.takeWhile isDigitChar, f)
      else none
  | _ => none

/-- Split a decimal string per the ethers `FixedNumber.fromString` regex
`^(-?)([0-9]*)\.?([0-9]*)$` with at least one digit overall.  Returns
(sign, whole digits, fractional digits). -/
def splitDec (cs : List Char) : Option (Bool × List Char × List Char) :=
  match cs with
  | '-' :: r => (splitDecBody r).map (fun p => (true, p.1, p.2))
  | _ => (splitDecBody cs).map (fun p => (false, p.1, p.2))

/-- Model of ethers v6 `parseUnits(value, decimals)`: parse a signed decimal
string with at most `decimals` fractional digits into the scaled integer;
`none` models the thrown `invalid FixedNumber string value` /
too-many-decimals errors. -/
def parseUnits (value : String) (decimals : Nat) : Option Int :=
  match splitDec value.data with
  | none => none
  | some (neg, w, f) =>
    if f.length ≤ decimals then
      let mag : Nat :=
        valM (w.map charToDigit) * 10 ^ decimals +
          valM (f.map charToDigit) * 10 ^ (decimals - f.length)
      some (if neg then -(mag : Int) else (mag : Int))
    else none

/-- Is `c` a hexadecimal digit character? -/
def isHexDigitChar (c : Char) : Bool :=
  isDigitChar c ||
    (decide (97 ≤ c.toNat) && decide (c.toNat ≤ 102)) ||
    (decide (65 ≤ c.toNat) && decide (c.toNat ≤ 70))

/-- Value of a hexadecimal digit character. -/
def hexCharToDigit (c : Char) : Nat :=
  if 97 ≤ c.toNat then c.toNat - 87
  else if 65 ≤ c.toNat then c.toNat - 55
  else c.toNat - 48

/-- Value of a most-significant-first hex digit character list. -/
def valHex (cs : List Char) : Nat := cs.foldl (fun a c => 16 * a + hexCharToDigit c) 0

/-- Model of the JavaScript `BigInt(string)` conversion as used by the
trigger node: `"0x"`-prefixed hex strings, signed decimal strings, and the
empty string (which converts to 0); `none` models the thrown
`SyntaxError`. -/
def jsBigInt (s : String) : Option Int :=
  match s.data with
  | '0' :: 'x' :: rest =>
      if !rest.isEmpty && rest.all isHexDigitChar then some ((valHex rest : Nat) : Int)
      else none
  | '-' :: rest =>
      if !rest.isEmpty && rest.all isDigitChar then
        some (-(valM (rest.map charToDigit) : Int))
      else none
  | rest =>
      if rest.all isDigitChar then some ((valM (rest.map charToDigit) : Nat) : Int)
      else none

/-! ## Unit converter (`utils/unitConverter.ts`) -/

/-- The `EthUnit` union type. -/
inductive EthUnit
  | wei | kwei | mwei | gwei | szabo | finney | ether
deriving DecidableEq

/-- The `UNIT_DECIMALS` table. -/
def UNIT_DECIMALS : EthUnit → Nat
  | .wei => 0
  | .kwei => 3
  | .mwei => 6
  | .gwei => 9
  | .szabo => 12
  | .finney => 15
  | .ether => 18

/-- `convertUnits(value, fromUnit, toUnit)`: parse at the source scale
(`ethers.parseUnits`), re-render at the target scale
(`ethers.formatUnits`).  `none` models a thrown parse error. -/
def convertUnits (value : String) (fromUnit toUnit : EthUnit) : Option String :=
  (parseUnits value (UNIT_DECIMALS fromUnit)).map
    (fun weiValue => formatUnits weiValue (UNIT_DECIMALS toUnit))

/-- Result record of `calculateTxCost`. -/
structure TxCost where
  wei : String
  gwei : String
  eth : String
deriving DecidableEq

/-- `calculateTxCost(gasUsed, gasPrice)`: the product rendered via
`toString`, `formatUnits(·, 9)` and `formatEther`.  Note the source
performs no sign validation of any kind. -/
def calculateTxCost (gasUsed gasPrice : Int) : TxCost :=
  let cost := gasUsed * gasPrice
  { wei := bigIntToString cost
    gwei := formatUnits cost 9
    eth := formatEther cost }


/-! ## Trigger poller model (`ZkSyncTrigger.poll` in `ZkSync.node.ts`)

One poll invocation is a state transformer on the `workflowStaticData`
bag: RPC responses are supplied by a `Provider` record whose fields return
`Except Unit _` (`error` models a thrown RPC failure), and the result pairs
the delivered events (only on success) with the bag as mutated in place by
the invocation up to the point of return or throw. -/

/-- JavaScript number-or-default (`(x as number) || d`): `undefined` and
`0` are falsy. -/
def orElse0 (o : Option Int) (d : Int) : Int :=
  match o with
  | some n => if n = 0 then d else n
  | none => d

/-- JavaScript truthiness of an optional string (`undefined`, `null` and
`""` are falsy). -/
def truthyS (o : Option String) : Bool :=
  match o with
  | some s => s != ""
  | none => false

/-- Integer range `[lo, hi]`, empty when `hi < lo` (the
`for (x = lo; x <= hi; x++)` loops). -/
def intRange (lo hi : Int) : List Int :=
  (List.range (hi + 1 - lo).toNat).map (fun i : Nat => lo + (i : Int))

/-- ASCII `String.prototype.toLowerCase`. -/
def lowerChar (c : Char) : Char :=
  if 65 ≤ c.toNat ∧ c.toNat ≤ 90 then Char.ofNat (c.toNat + 32) else c

/-- Lowercase a string. -/
def lowerStr (s : String) : String := ⟨s.data.map lowerChar⟩

/-- `String.prototype.slice(n)`. -/
def sliceFrom (s : String) (n : Nat) : String := ⟨s.data.drop n⟩

/-- `ethers.id('Transfer(address,address,uint256)')`, the ERC-20/721
`Transfer` topic hash. -/
def transferTopic : String :=
  "0xddf252ad1be2c89b69c2b068fc378daa952ba7f163c4a11628f55a4df523b3ef"

/-- ethers `Block` as consumed by the `newBlock` scan (`getBlock(n)`). -/
structure Block where
  number : Int
  hash : Option String
  timestamp : Int
  gasLimit : Option Int
  gasUsed : Option Int
  transactions : Option (List String)
deriving DecidableEq

/-- A prefetched transaction of `getBlock(n, true)`; `fromAddr` / `toAddr`
model `tx.from` / `tx.to`. -/
structure TransactionResponse where
  hash : String
  fromAddr : Option String
  toAddr : Option String
  value : Option Int
deriving DecidableEq

/-- ethers `Block` with prefetched transactions (`getBlock(n, true)`). -/
structure BlockWithTxs where
  number : Int
  prefetchedTransactions : Option (List TransactionResponse)
deriving DecidableEq

/-- zksync-ethers `BatchDetails` (`getL1BatchDetails`). -/
structure BatchDetails where
  number : Int
  timestamp : Int
  l1TxCount : Int
  l2TxCount : Int
  rootHash : Option String
  status : String
  commitTxHash : Option String
  proveTxHash : Option String
  executeTxHash : Option String
deriving DecidableEq

/-- ethers `TransactionReceipt`; `fromAddr` / `toAddr` model
`receipt.from` / `receipt.to`. -/
structure TransactionReceipt where
  hash : String
  status : Option Int
  blockNumber : Option Int
  fromAddr : String
  toAddr : Option String
  gasUsed : Option Int
deriving DecidableEq

/-- An `eth_getLogs` log entry. -/
structure Log where
  topics : List String
  data : String
  blockNumber : Int
  transactionHash : String
  index : Int
deriving DecidableEq

/-- The filter object passed to `provider.getLogs`. -/
structure LogFilter where
  address : String
  topics : List String
  fromBlock : Int
  toBlock : Int
deriving DecidableEq

/-- The JSON-RPC provider surface consumed by one poll invocation; each
field is the (deterministic) response of that call within the invocation,
`Except.error` modelling a thrown RPC failure. -/
structure Provider where
  getBlockNumber : Except Unit Int
  getBlock : Int → Except Unit (Option Block)
  getBlockWithTx : Int → Except Unit (Option BlockWithTxs)
  getL1BatchNumber : Except Unit Int
  getL1BatchDetails : Int → Except Unit BatchDetails
  getLogs : LogFilter → Except Unit (List Log)
  getTransactionReceipt : String → Except Unit (Option TransactionReceipt)
  getBalance : String → Except Unit Int

/-- The `this.getWorkflowStaticData('node')` bag as keyed by the trigger
node; `none` models an absent key, `txLatch` the `tx_<hash>` keys and
`batchExecuted` the `batch_executed_<n>` keys. -/
structure StaticData where
  lastBlock : Option Int
  lastL1Batch : Option Int
  lastCheckedBlock : Option Int
  lastTokenBlock : Option Int
  lastNftBlock : Option Int
  lastEventBlock : Option Int
  lastFinalizedBatch : Option Int
  lastBalance : Option String
  txLatch : String → Bool
  batchExecuted : Int → Bool

/-- Fresh static data: every key absent. -/
def emptyStatic : StaticData :=
  { lastBlock := none, lastL1Batch := none, lastCheckedBlock := none
    lastTokenBlock := none, lastNftBlock := none, lastEventBlock := none
    lastFinalizedBatch := none, lastBalance := none
    txLatch := fun _ => false, batchExecuted := fun _ => false }

/-! ### newBlock -/

/-- `newBlock` event payload (the source additionally renders
`timestampDate`, an ISO-8601 view of `timestamp`). -/
structure NewBlockEvent where
  blockNumber : Int
  hash : Option String
  timestamp : Int
  gasLimit : Option String
  gasUsed : Option String
  transactionCount : Nat
  network : String
deriving DecidableEq

/-- Build the `newBlock` event json from a block. -/
def mkNewBlockEvent (net : String) (b : Block) : NewBlockEvent :=
  { blockNumber := b.number
    hash := b.hash
    timestamp := b.timestamp
    gasLimit := b.gasLimit.map bigIntToString
    gasUsed := b.gasUsed.map bigIntToString
    transactionCount := (b.transactions.map List.length).getD 0
    network := net }

/-- The `newBlock` scan loop over the block numbers in range (null blocks
are skipped, a thrown `getBlock` aborts). -/
def scanNewBlock (p : Provider) (net : String) : List Int → Except Unit (List NewBlockEvent)
  | [] => .ok []
  | n :: ns =>
    match p.getBlock n with
    | .error e => .error e
    | .ok none => scanNewBlock p net ns
    | .ok (some blk) =>
      match scanNewBlock p net ns with
      | .error e => .error e
      | .ok rest => .ok (mkNewBlockEvent net blk :: rest)

/-- The `newBlock` case of `poll`. -/
def pollNewBlock (p : Provider) (net : String) (st : StaticData) :
    Except Unit (List NewBlockEvent) × StaticData :=
  match p.getBlockNumber with
  | .error e => (.error e, st)
  | .ok currentBlock =>
    let lastBlock := orElse0 st.lastBlock (currentBlock - 1)
    if currentBlock > lastBlock then
      match scanNewBlock p net (intRange (lastBlock + 1) currentBlock) with
      | .error e => (.error e, st)
      | .ok evs => (.ok evs, { st with lastBlock := some currentBlock })
    else (.ok [], st)

/-! ### newL1Batch -/

/-- `newL1Batch` event payload. -/
structure NewL1BatchEvent where
  batchNumber : Int
  timestamp : Int
  l1TxCount : Int
  l2TxCount : Int
  rootHash : Option String
  status : String
  commitTxHash : Option String
  proveTxHash : Option String
  executeTxHash : Option String
  network : String
deriving DecidableEq

/-- Build the `newL1Batch` event json from batch details. -/
def mkNewL1BatchEvent (net : String) (d : BatchDetails) : NewL1BatchEvent :=
  { batchNumber := d.number
    timestamp := d.timestamp
    l1TxCount := d.l1TxCount
    l2TxCount := d.l2TxCount
    rootHash := d.rootHash
    status := d.status
    commitTxHash := d.commitTxHash
    proveTxHash := d.proveTxHash
    executeTxHash := d.executeTxHash
    network := net }

/-- The `newL1Batch` scan loop over the batch numbers in range. -/
def scanNewL1Batch (p : Provider) (net : String) : List Int → Except Unit (List NewL1BatchEvent)
  | [] => .ok []
  | n :: ns =>
    match p.getL1BatchDetails n with
    | .error e => .error e
    | .ok details =>
      match scanNewL1Batch p net ns with
      | .error e => .error e
      | .ok rest => .ok (mkNewL1BatchEvent net details :: rest)

/-- The `newL1Batch` case of `poll`. -/
def pollNewL1Batch (p : Provider) (net : String) (st : StaticData) :
    Except Unit (List NewL1BatchEvent) × StaticData :=
  match p.getL1BatchNumber with
  | .error e => (.error e, st)
  | .ok currentBatch =>
    let lastBatch := orElse0 st.lastL1Batch (currentBatch - 1)
    if currentBatch > lastBatch then
      match scanNewL1Batch p net (intRange (lastBatch + 1) currentBatch) with
      | .error e => (.error e, st)
      | .ok evs => (.ok evs, { st with lastL1Batch := some currentBatch })
    else (.ok [], st)

/-! ### transactionConfirmed -/

/-- `transactionConfirmed` event payload. -/
structure TxConfirmedEvent where
  hash : String
  status : String
  blockNumber : Int
  confirmations : Int
  fromAddr : String
  toAddr : Option String
  gasUsed : Option String
  network : String
deriving DecidableEq

/-- The `transactionConfirmed` case of `poll`: one-shot latch per watched
hash, receipt looked up only while the latch is unset; the latch is set in
the same step that pushes the event. -/
def pollTransactionConfirmed (p : Provider) (net : String) (txHash : String)
    (requiredConfirmations : Int) (st : StaticData) :
    Except Unit (List TxConfirmedEvent) × StaticData :=
  if st.txLatch txHash then (.ok [], st)
  else
    match p.getTransactionReceipt txHash with
    | .error e => (.error e, st)
    | .ok none => (.ok [], st)
    | .ok (some receipt) =>
      match receipt.blockNumber with
      | none => (.ok [], st)
      | some rbn =>
        if rbn = 0 then (.ok [], st)
        else
          match p.getBlockNumber with
          | .error e => (.error e, st)
          | .ok currentBlock =>
            let confirmations := currentBlock - rbn + 1
            if confirmations ≥ requiredConfirmations then
              (.ok [{ hash := receipt.hash
                      status := if receipt.status = some 1 then "success" else "failed"
                      blockNumber := rbn
                      confirmations := confirmations
                      fromAddr := receipt.fromAddr
                      toAddr := receipt.toAddr
                      gasUsed := receipt.gasUsed.map bigIntToString
                      network := net }],
               { st with txLatch := fun h => if h = txHash then true else st.txLatch h })
            else (.ok [], st)

/-! ### ethReceived / ethSent -/

/-- Which direction the `ethReceived` / `ethSent` kinds watch. -/
inductive EthDirection
  | received
  | sent
deriving DecidableEq

/-- `ethReceived` / `ethSent` event payload. -/
structure EthTransferEvent where
  type : String
  hash : String
  fromAddr : Option String
  toAddr : Option String
  valueWei : Option String
  valueEth : String
  blockNumber : Int
  network : String
deriving DecidableEq

/-- The per-transaction filter: case-insensitive match of `tx.to` /
`tx.from` against the watched address, direction selecting which. -/
def matchesWatch (dir : EthDirection) (watch : String) (tx : TransactionResponse) : Bool :=
  let isReceived := match tx.toAddr with
    | some t => lowerStr t == lowerStr watch
    | none => false
  let isSent := match tx.fromAddr with
    | some f => lowerStr f == lowerStr watch
    | none => false
  match dir with
  | .received => isReceived
  | .sent => isSent

/-- Build the `ethReceived` / `ethSent` event json (`tx.value` is falsy
when `0n`, rendering `valueEth` as `'0'`). -/
def mkEthEvent (net : String) (dir : EthDirection) (bnum : Int)
    (tx : TransactionResponse) : EthTransferEvent :=
  { type := match dir with | .received => "received" | .sent => "sent"
    hash := tx.hash
    fromAddr := tx.fromAddr
    toAddr := tx.toAddr
    valueWei := tx.value.map bigIntToString
    valueEth := match tx.value with
      | some v => if v = 0 then "0" else formatEther v
      | none => "0"
    blockNumber := bnum
    network := net }

/-- The `ethReceived` / `ethSent` scan loop: full transaction list per
block in range, filtered by watched address. -/
def scanEth (p : Provider) (net : String) (dir : EthDirection) (watch : String) :
    List Int → Except Unit (List EthTransferEvent)
  | [] => .ok []
  | n :: ns =>
    match p.getBlockWithTx n with
    | .error e => .error e
    | .ok ob =>
      match scanEth p net dir watch ns with
      | .error e => .error e
      | .ok rest =>
        match ob with
        | some b =>
          match b.prefetchedTransactions with
          | some txs =>
            .ok ((txs.filter (matchesWatch dir watch)).map (mkEthEvent net dir b.number) ++ rest)
          | none => .ok rest
        | none => .ok rest

/-- The `ethReceived` / `ethSent` case of `poll`; `isAddr` models
`isValidAddress` (`ethers.isAddress`), an invalid watch address throws
before any RPC call of this case. -/
def pollEthTransfer (p : Provider) (net : String) (isAddr : String → Bool)
    (dir : EthDirection) (watchAddress : String) (st : StaticData) :
    Except Unit (List EthTransferEvent) × StaticData :=
  if !isAddr watchAddress then (.error (), st)
  else
    match p.getBlockNumber with
    | .error e => (.error e, st)
    | .ok currentBlock =>
      let lastCheckedBlock := orElse0 st.lastCheckedBlock (currentBlock - 1)
      if currentBlock > lastCheckedBlock then
        match scanEth p net dir watchAddress (intRange (lastCheckedBlock + 1) currentBlock) with
        | .error e => (.error e, st)
        | .ok evs => (.ok evs, { st with lastCheckedBlock := some currentBlock })
      else (.ok [], st)

/-! ### tokenTransfer -/

/-- `tokenTransfer` event payload. -/
structure TokenTransferEvent where
  type : String
  contractAddress : String
  fromAddr : String
  toAddr : String
  value : String
  blockNumber : Int
  transactionHash : String
  logIndex : Int
  network : String
deriving DecidableEq

/-- Process one `Transfer` log of the `tokenTransfer` scan: decode
`from` / `to` from topics 1 and 2 (`'0x' + topic.slice(26)`), the value
from `BigInt(log.data)`; a missing topic or malformed data throws
(aborting the poll), a filtered-out log yields no event. -/
def processTokenLog (net ca filterAddress : String) (log : Log) :
    Except Unit (Option TokenTransferEvent) :=
  match log.topics with
  | _t0 :: t1 :: t2 :: _ =>
    match jsBigInt log.data with
    | none => .error ()
    | some value =>
      if filterAddress != "" &&
          !(lowerStr ("0x" ++ sliceFrom t1 26) == lowerStr filterAddress) &&
          !(lowerStr ("0x" ++ sliceFrom t2 26) == lowerStr filterAddress) then
        .ok none
      else
        .ok (some { type := "tokenTransfer", contractAddress := ca
                    fromAddr := "0x" ++ sliceFrom t1 26
                    toAddr := "0x" ++ sliceFrom t2 26
                    value := bigIntToString value
                    blockNumber := log.blockNumber
                    transactionHash := log.transactionHash
                    logIndex := log.index, network := net })
  | _ => .error ()

/-- The `tokenTransfer` per-log loop. -/
def scanTokenLogs (net ca filterAddress : String) :
    List Log → Except Unit (List TokenTransferEvent)
  | [] => .ok []
  | log :: rest =>
    match processTokenLog net ca filterAddress log with
    | .error e => .error e
    | .ok oev =>
      match scanTokenLogs net ca filterAddress rest with
      | .error e => .error e
      | .ok evs =>
        .ok (match oev with | some ev => ev :: evs | none => evs)

/-- The `tokenTransfer` case of `poll`: one `getLogs` query for the
`Transfer` topic over the unscanned block range. -/
def pollTokenTransfer (p : Provider) (net : String)
    (contractAddress filterAddress : String) (st : StaticData) :
    Except Unit (List TokenTransferEvent) × StaticData :=
  match p.getBlockNumber with
  | .error e => (.error e, st)
  | .ok currentBlock =>
    let lastCheckedBlock := orElse0 st.lastTokenBlock (currentBlock - 1)
    if currentBlock > lastCheckedBlock then
      match p.getLogs { address := contractAddress, topics := [transferTopic],
                        fromBlock := lastCheckedBlock + 1, toBlock := currentBlock } with
      | .error e => (.error e, st)
      | .ok logs =>
        match scanTokenLogs net contractAddress filterAddress logs with
        | .error e => (.error e, st)
        | .ok evs => (.ok evs, { st with lastTokenBlock := some currentBlock })
    else (.ok [], st)

/-! ### nftTransfer -/

/-- `nftTransfer` event payload. -/
structure NftTransferEvent where
  type : String
  contractAddress : String
  fromAddr : String
  toAddr : String
  tokenId : String
  blockNumber : Int
  transactionHash : String
  logIndex : Int
  network : String
deriving DecidableEq

/-- The `nftTransfer` per-log loop: logs with fewer than four topics are
skipped silently (the explicit `log.topics.length >= 4` guard); `tokenId`
comes from `BigInt(topics[3])`, which can throw. -/
def scanNftLogs (net ca filterAddress : String) :
    List Log → Except Unit (List NftTransferEvent)
  | [] => .ok []
  | log :: rest =>
    match log.topics with
    | _t0 :: t1 :: t2 :: t3 :: _ =>
      match jsBigInt t3 with
      | none => .error ()
      | some tokenId =>
        match scanNftLogs net ca filterAddress rest with
        | .error e => .error e
        | .ok evs =>
          if filterAddress != "" &&
              !(lowerStr ("0x" ++ sliceFrom t1 26) == lowerStr filterAddress) &&
              !(lowerStr ("0x" ++ sliceFrom t2 26) == lowerStr filterAddress) then
            .ok evs
          else
            .ok ({ type := "nftTransfer", contractAddress := ca
                   fromAddr := "0x" ++ sliceFrom t1 26
                   toAddr := "0x" ++ sliceFrom t2 26
                   tokenId := bigIntToString tokenId
                   blockNumber := log.blockNumber
                   transactionHash := log.transactionHash
                   logIndex := log.index, network := net } :: evs)
    | _ => scanNftLogs net ca filterAddress rest

/-- The `nftTransfer` case of `poll`. -/
def pollNftTransfer (p : Provider) (net : String)
    (contractAddress filterAddress : String) (st : StaticData) :
    Except Unit (List NftTransferEvent) × StaticData :=
  match p.getBlockNumber with
  | .error e => (.error e, st)
  | .ok currentBlock =>
    let lastCheckedBlock := orElse0 st.lastNftBlock (currentBlock - 1)
    if currentBlock > lastCheckedBlock then
      match p.getLogs { address := contractAddress, topics := [transferTopic],
                        fromBlock := lastCheckedBlock + 1, toBlock := currentBlock } with
      | .error e => (.error e, st)
      | .ok logs =>
        match scanNftLogs net contractAddress filterAddress logs with
        | .error e => (.error e, st)
        | .ok evs => (.ok evs, { st with lastNftBlock := some currentBlock })
    else (.ok [], st)

/-! ### contractEvent -/

/-- An `ethers.Interface` fragment, abstracted to what the scan reads. -/
structure EventFragmentModel where
  isEvent : Bool
  topicHash : String
deriving DecidableEq

/-- A successfully decoded log (`iface.parseLog`). -/
structure DecodedLog where
  name : String
  args : List (String × String)
deriving DecidableEq

/-- Abstract model of a constructed `ethers.Interface`: its fragments and
its `parseLog` decoder (`none` models the thrown decode failure that the
scan swallows). -/
structure InterfaceModel where
  fragments : List EventFragmentModel
  parseLog : Log → Option DecodedLog

/-- `contractEvent` event payload. -/
structure ContractEventItem where
  type : String
  eventName : String
  contractAddress : String
  args : List (String × String)
  blockNumber : Int
  transactionHash : String
  logIndex : Int
  network : String
deriving DecidableEq

/-- The `contractEvent` per-log loop: decode failures are skipped
silently (the empty `catch`), never fatal. -/
def scanContractLogs (net ca : String) (iface : InterfaceModel) :
    List Log → List ContractEventItem
  | [] => []
  | log :: rest =>
    match iface.parseLog log with
    | some decoded =>
      { type := "contractEvent", eventName := decoded.name, contractAddress := ca
        args := decoded.args, blockNumber := log.blockNumber
        transactionHash := log.transactionHash, logIndex := log.index
        network := net } :: scanContractLogs net ca iface rest
    | none => scanContractLogs net ca iface rest

/-- The `contractEvent` case of `poll`; `ifaceOf` models the
`new ethers.Interface([eventAbi])` constructor (which can throw).  The
watermark is written whenever the guarded block completes, also when no
event fragment or topic is available. -/
def pollContractEvent (p : Provider) (net : String)
    (ifaceOf : String → Except Unit InterfaceModel)
    (contractAddress eventAbi : String) (st : StaticData) :
    Except Unit (List ContractEventItem) × StaticData :=
  match p.getBlockNumber with
  | .error e => (.error e, st)
  | .ok currentBlock =>
    let lastCheckedBlock := orElse0 st.lastEventBlock (currentBlock - 1)
    if currentBlock > lastCheckedBlock then
      match ifaceOf eventAbi with
      | .error e => (.error e, st)
      | .ok iface =>
        match iface.fragments.filter (fun f => f.isEvent) with
        | [] => (.ok [], { st with lastEventBlock := some currentBlock })
        | frag :: _ =>
          if frag.topicHash != "" then
            match p.getLogs { address := contractAddress, topics := [frag.topicHash],
                              fromBlock := lastCheckedBlock + 1, toBlock := currentBlock } with
            | .error e => (.error e, st)
            | .ok logs =>
              (.ok (scanContractLogs net contractAddress iface logs),
               { st with lastEventBlock := some currentBlock })
          else (.ok [], { st with lastEventBlock := some currentBlock })
    else (.ok [], st)

/-! ### blockFinalized -/

/-- `blockFinalized` event payload. -/
structure FinalizedEvent where
  type : String
  batchNumber : Int
  status : String
  commitTxHash : Option String
  proveTxHash : Option String
  executeTxHash : Option String
  network : String
deriving DecidableEq

/-- The `blockFinalized` scan loop.  Unlike every other kind, this loop
mutates cursor state while scanning: the `batch_executed_<n>` latch is set
in the same step that pushes the event, so a later throw leaves latches of
already-visited batches set even though no event is delivered. -/
def scanFinalized (p : Provider) (net : String) :
    List Int → StaticData → Except Unit (List FinalizedEvent) × StaticData
  | [], st => (.ok [], st)
  | n :: ns, st =>
    match p.getL1BatchDetails n with
    | .error e => (.error e, st)
    | .ok details =>
      if details.status == "verified" && truthyS details.executeTxHash &&
          !st.batchExecuted n then
        let st1 : StaticData :=
          { st with batchExecuted := fun m => if m = n then true else st.batchExecuted m }
        match scanFinalized p net ns st1 with
        | (.error e, st2) => (.error e, st2)
        | (.ok rest, st2) =>
          (.ok ({ type := "blockFinalized", batchNumber := details.number
                  status := details.status, commitTxHash := details.commitTxHash
                  proveTxHash := details.proveTxHash
                  executeTxHash := details.executeTxHash
                  network := net } :: rest), st2)
      else scanFinalized p net ns st

/-- The `blockFinalized` case of `poll`: watermark seeded ten batches back
on first run, and written unconditionally after the loop — also when the
tip did not advance. -/
def pollBlockFinalized (p : Provider) (net : String) (st : StaticData) :
    Except Unit (List FinalizedEvent) × StaticData :=
  match p.getL1BatchNumber with
  | .error e => (.error e, st)
  | .ok currentBatch =>
    let lastCheckedBatch := orElse0 st.lastFinalizedBatch (currentBatch - 10)
    match scanFinalized p net (intRange (lastCheckedBatch + 1) currentBatch) st with
    | (.error e, st1) => (.error e, st1)
    | (.ok evs, st1) => (.ok evs, { st1 with lastFinalizedBatch := some currentBatch })

/-! ### balanceChange -/

/-- `balanceChange` event payload. -/
structure BalanceChangeEvent where
  type : String
  address : String
  previousBalanceWei : String
  previousBalanceEth : String
  currentBalanceWei : String
  currentBalanceEth : String
  changeWei : String
  changeEth : String
  direction : String
  network : String
deriving DecidableEq

/-- Build the `balanceChange` event json. -/
def mkBalanceChangeEvent (net watch last : String)
    (previousBalance currentBalance : Int) : BalanceChangeEvent :=
  let change := currentBalance - previousBalance
  { type := "balanceChange", address := watch
    previousBalanceWei := last
    previousBalanceEth := formatEther previousBalance
    currentBalanceWei := bigIntToString currentBalance
    currentBalanceEth := formatEther currentBalance
    changeWei := bigIntToString change
    changeEth := formatEther change
    direction := if change > 0 then "increase" else "decrease"
    network := net }

/-- The `balanceChange` case of `poll`: an event is pushed when a snapshot
string exists and differs from `currentBalance.toString()` (string
comparison); the snapshot is rewritten after the comparison, also when no
event was pushed — but not when `BigInt(lastBalance)` throws. -/
def pollBalanceChange (p : Provider) (net : String) (isAddr : String → Bool)
    (watchAddress : String) (st : StaticData) :
    Except Unit (List BalanceChangeEvent) × StaticData :=
  if !isAddr watchAddress then (.error (), st)
  else
    match p.getBalance watchAddress with
    | .error e => (.error e, st)
    | .ok currentBalance =>
      match st.lastBalance with
      | none => (.ok [], { st with lastBalance := some (bigIntToString currentBalance) })
      | some last =>
        if bigIntToString currentBalance != last then
          match jsBigInt last with
          | none => (.error (), st)
          | some previousBalance =>
            (.ok [mkBalanceChangeEvent net watchAddress last previousBalance currentBalance],
             { st with lastBalance := some (bigIntToString currentBalance) })
        else (.ok [], { st with lastBalance := some (bigIntToString currentBalance) })

/-! ## Network configuration (`constants/networks.ts`) -/

/-- A `NetworkConfig` record. -/
structure NetworkConfig where
  name : String
  chainId : Int
  rpcUrl : String
  explorerUrl : String
  explorerApiUrl : String
  l1ChainId : Int
  l1RpcUrl : String
  bridgeAddress : String
  testnetPaymaster : Option String
deriving DecidableEq

/-- `NETWORKS.mainnet`. -/
def mainnetConfig : NetworkConfig :=
  { name := "zkSync Era Mainnet"
    chainId := 324
    rpcUrl := "https://mainnet.era.zksync.io"
    explorerUrl := "https://explorer.zksync.io"
    explorerApiUrl := "https://block-explorer-api.mainnet.zksync.io"
    l1ChainId := 1
    l1RpcUrl := "https://ethereum.publicnode.com"
    bridgeAddress := "0x32400084C286CF3E17e7B677ea9583e60a000324"
    testnetPaymaster := none }

/-- `NETWORKS.sepolia`. -/
def sepoliaConfig : NetworkConfig :=
  { name := "zkSync Era Sepolia Testnet"
    chainId := 300
    rpcUrl := "https://sepolia.era.zksync.dev"
    explorerUrl := "https://sepolia.explorer.zksync.io"
    explorerApiUrl := "https://block-explorer-api.sepolia.zksync.dev"
    l1ChainId := 11155111
    l1RpcUrl := "https://ethereum-sepolia.publicnode.com"
    bridgeAddress := "0x9A6DE0f62Aa270A8bCB1e2610078650D539B1Ef9"
    testnetPaymaster := some "0x3cb2b87d10ac01736a65688f3e0fb1b070b3eea3" }

/-- Own property names of `Object.prototype`: an indexed read on a plain
object literal falls through to these via the prototype chain, yielding
an inherited (truthy) member rather than `undefined`. -/
def objectPrototypeKeys : List String :=
  ["constructor", "hasOwnProperty", "isPrototypeOf", "propertyIsEnumerable",
   "toLocaleString", "toString", "valueOf", "__defineGetter__",
   "__defineSetter__", "__lookupGetter__", "__lookupSetter__", "__proto__"]

/-- The value of the JavaScript indexed read `NETWORKS[network]` as the
`||` fallback sees it: an own `NetworkConfig` entry, an inherited
`Object.prototype` member (truthy, but not a config), or `undefined`. -/
inductive JsLookup where
  | config : NetworkConfig → JsLookup
  | protoMember : String → JsLookup
  | undefinedRead : JsLookup
deriving DecidableEq

/-- The `NETWORKS[network]` indexed read: own keys `mainnet` / `sepolia`
first, then the prototype chain of the plain object literal. -/
def NETWORKS_lookup (network : String) : JsLookup :=
  if network == "mainnet" then .config mainnetConfig
  else if network == "sepolia" then .config sepoliaConfig
  else if network ∈ objectPrototypeKeys then .protoMember network
  else .undefinedRead

/-- `getNetworkConfig(network, customRpcUrl)`: the custom branch requires
`network === 'custom'` and a truthy (non-empty) URL; anything else falls
through to `NETWORKS[network] || NETWORKS.mainnet`, where only an
`undefined` read (no own key, no inherited member) is falsy. -/
def getNetworkConfig (network : String) (customRpcUrl : Option String) : JsLookup :=
  if network == "custom" && truthyS customRpcUrl then
    .config
      { name := "Custom Network"
        chainId := 0
        rpcUrl := customRpcUrl.getD ""
        explorerUrl := ""
        explorerApiUrl := ""
        l1ChainId := 0
        l1RpcUrl := ""
        bridgeAddress := ""
        testnetPaymaster := none }
  else
    match NETWORKS_lookup network with
    | .undefinedRead => .config mainnetConfig
    | v => v

/-! ## `ZkSync.execute`: address validation vs issued RPC requests

`execute` creates the client per item with `createZkSyncClient`, which
awaits `provider.getNetwork()` — a JSON-RPC round-trip — before any
parameter of the item is validated.  The `account` resource then validates
its address parameter before its operation's RPC call; the `contract`
resource's `getCode` issues its RPC with the unvalidated address. -/

/-- One JSON-RPC request issued by `execute` on behalf of one input item. -/
inductive RpcCall
  | getNetwork
  | rpcGetBalance (address : String)
  | rpcGetTransactionCount (address : String)
  | rpcGetCode (address : String)
deriving DecidableEq

/-- The `account` resource operations. -/
inductive AccountOp
  | getBalance
  | getNonce
  | getTransactionCount
  | isContract
  | getCode
deriving DecidableEq

/-- The RPC call each `account` operation issues for its address. -/
def accountOpCall (op : AccountOp) (address : String) : RpcCall :=
  match op with
  | .getBalance => .rpcGetBalance address
  | .getNonce => .rpcGetTransactionCount address
  | .getTransactionCount => .rpcGetTransactionCount address
  | .isContract => .rpcGetCode address
  | .getCode => .rpcGetCode address

/-- One `execute` item for the `account` resource: client creation issues
`getNetwork` first; then the address is validated (`isValidAddress`,
modelled by the predicate `isAddr`) and an invalid address throws before
the operation's call.  Returns the issued calls in order and whether the
item threw. -/
def executeAccountItem (isAddr : String → Bool) (op : AccountOp) (address : String) :
    List RpcCall × Bool :=
  if isAddr address then ([RpcCall.getNetwork, accountOpCall op address], false)
  else ([RpcCall.getNetwork], true)

/-- One `execute` item for the `contract` resource's `getCode` operation:
no validation of the address parameter exists in this branch, so the RPC
call is issued for any address whatsoever. -/
def executeContractGetCode (_isAddr : String → Bool) (address : String) :
    List RpcCall × Bool :=
  ([RpcCall.getNetwork, RpcCall.rpcGetCode address], false)

/-! ## Event counting helpers -/

/-- Events of one delivery carrying hash `h`. -/
def countTxList (h : String) (l : List TxConfirmedEvent) : Nat :=
  (l.filter (fun e => e.hash == h)).length

/-- Events of one delivery carrying batch number `b`. -/
def countFinList (b : Int) (l : List FinalizedEvent) : Nat :=
  (l.filter (fun e => e.batchNumber == b)).length

/-- The events a poll invocation delivers: none when it throws. -/
def deliveredTx (r : Except Unit (List TxConfirmedEvent)) : List TxConfirmedEvent :=
  match r with
  | .ok evs => evs
  | .error _ => []

/-- The events a `blockFinalized` invocation delivers: none on a throw. -/
def deliveredFin (r : Except Unit (List FinalizedEvent)) : List FinalizedEvent :=
  match r with
  | .ok evs => evs
  | .error _ => []

/-! ## Invocation sequences (for the one-shot latch discipline) -/

/-- A sequence of `transactionConfirmed` invocations: per step a provider,
watched hash and confirmation threshold; events are delivered only by
invocations that do not throw. -/
def runTransactionConfirmed (net : String) :
    List (Provider × String × Int) → StaticData →
      List (List TxConfirmedEvent) × StaticData
  | [], st => ([], st)
  | (p, h, c) :: rest, st =>
    let r := pollTransactionConfirmed p net h c st
    let out := runTransactionConfirmed net rest r.2
    (deliveredTx r.1 :: out.1, out.2)

/-- A sequence of `blockFinalized` invocations. -/
def runBlockFinalized (net : String) :
    List Provider → StaticData → List (List FinalizedEvent) × StaticData
  | [], st => ([], st)
  | p :: rest, st =>
    let r := pollBlockFinalized p net st
    let out := runBlockFinalized net rest r.2
    (deliveredFin r.1 :: out.1, out.2)

/-- Delivered `transactionConfirmed` events carrying hash `h` across a
sequence of invocations. -/
def countTxEvents (h : String) (outs : List (List TxConfirmedEvent)) : Nat :=
  (outs.map (fun l => (l.filter (fun e => e.hash == h)).length)).sum

/-- Delivered `blockFinalized` events carrying batch number `b` across a
sequence of invocations. -/
def countFinEvents (b : Int) (outs : List (List FinalizedEvent)) : Nat :=
  (outs.map (fun l => (l.filter (fun e => e.batchNumber == b)).length)).sum

/-! ## Concrete providers and states used for evaluation -/

/-- A well-behaved provider with a fixed chain tip and balance: blocks and
prefetched blocks are absent, batch details echo the queried number with a
non-final status, no logs, no receipts. -/
def constProvider (tip bal : Int) : Provider :=
  { getBlockNumber := .ok tip
    getBlock := fun _ => .ok none
    getBlockWithTx := fun _ => .ok none
    getL1BatchNumber := .ok tip
    getL1BatchDetails := fun n =>
      .ok { number := n, timestamp := 0, l1TxCount := 0, l2TxCount := 0
            rootHash := none, status := "sealed", commitTxHash := none
            proveTxHash := none, executeTxHash := none }
    getLogs := fun _ => .ok []
    getTransactionReceipt := fun _ => .ok none
    getBalance := fun _ => .ok bal }

/-- Batch details for a verified (finalized) batch `n`. -/
def verifiedBatch (n : Int) : BatchDetails :=
  { number := n, timestamp := 100, l1TxCount := 1, l2TxCount := 2
    rootHash := some "0xroot", status := "verified"
    commitTxHash := some "0xcommit", proveTxHash := some "0xprove"
    executeTxHash := some "0xexec" }

/-- Provider for the partial-failure run: L1 batch tip 102, batch 101
verified, querying batch 102 throws. -/
def failAt102Provider : Provider :=
  { constProvider 102 0 with
    getL1BatchDetails := fun n =>
      if n = 101 then .ok (verifiedBatch 101) else .error () }

/-- Provider for the retry run: L1 batch tip 102, batch 101 verified,
batch 102 sealed, all queries succeed. -/
def retryProvider : Provider :=
  { constProvider 102 0 with
    getL1BatchDetails := fun n =>
      if n = 101 then .ok (verifiedBatch 101)
      else .ok { number := n, timestamp := 0, l1TxCount := 0, l2TxCount := 0
                 rootHash := none, status := "sealed", commitTxHash := none
                 proveTxHash := none, executeTxHash := none } }

/-- A provider that confirms the watched transaction at block 5 with tip
10. -/
def receiptProvider : Provider :=
  { constProvider 10 0 with
    getTransactionReceipt := fun h =>
      .ok (some { hash := h, status := some 1, blockNumber := some 5
                  fromAddr := "0xsender", toAddr := some "0xdest"
                  gasUsed := some 21000 }) }

/-- Static data with every block/batch watermark at 5 except the
finalized-batch watermark at 100. -/
def staleState : StaticData :=
  { emptyStatic with
    lastBlock := some 5
    lastL1Batch := some 5
    lastCheckedBlock := some 5
    lastTokenBlock := some 5
    lastNftBlock := some 5
    lastEventBlock := some 5
    lastFinalizedBatch := some 100 }

/-- A provider whose block tip (3) and batch tip (95) are both behind the
watermarks of `staleState`. -/
def staleProvider : Provider :=
  { constProvider 3 0 with getL1BatchNumber := .ok 95 }

/-- Static data for the partial-failure run: finalized watermark 100, no
latches. -/
def finState0 : StaticData := { emptyStatic with lastFinalizedBatch := some 100 }

/-! ## Provider well-behavedness (the standard JSON-RPC contract of §6) -/

/-- `eth_getBlockByNumber` returns the block with the queried number. -/
def wbBlocks (p : Provider) : Prop :=
  ∀ n b, p.getBlock n = .ok (some b) → b.number = n

/-- Same for blocks with prefetched transactions. -/
def wbBlocksTx (p : Provider) : Prop :=
  ∀ n b, p.getBlockWithTx n = .ok (some b) → b.number = n

/-- `zks_getL1BatchDetails` returns details of the queried batch. -/
def wbDetails (p : Provider) : Prop :=
  ∀ n d, p.getL1BatchDetails n = .ok d → d.number = n

/-- `eth_getLogs` only returns logs inside the queried block range. -/
def wbLogs (p : Provider) : Prop :=
  ∀ f logs, p.getLogs f = .ok logs →
    ∀ log ∈ logs, f.fromBlock ≤ log.blockNumber ∧ log.blockNumber ≤ f.toBlock

/-- `eth_getTransactionReceipt` returns the receipt of the queried hash. -/
def wbReceipts (p : Provider) : Prop :=
  ∀ h r, p.getTransactionReceipt h = .ok (some r) → r.hash = h

/-! ## Round-trip lemmas: parsing a rendered amount recovers the integer -/

theorem valLE_digitsAux : ∀ fuel n, n ≤ fuel → valLE (digitsAux fuel n) = n := by
  intro fuel
  induction fuel with
  | zero => intro n h; interval_cases n; rfl
  | succ fuel ih =>
    intro n h
    by_cases hn : n = 0
    · subst hn; simp [digitsAux, valLE]
    · have hdiv : n / 10 ≤ fuel := by
        have := Nat.div_lt_self (Nat.pos_of_ne_zero hn) (by norm_num : 1 < 10)
        omega
      simp only [digitsAux, hn, if_false, valLE, ih _ hdiv]
      omega

theorem valLE_natDigitsLE (n : Nat) : valLE (natDigitsLE n) = n :=
  valLE_digitsAux n n le_rfl

theorem valM_foldl (ds : List Nat) :
    ∀ a, List.foldl (fun a d => 10 * a + d) a ds = a * 10 ^ ds.length + valM ds := by
  induction ds with
  | nil => intro a; simp [valM]
  | cons d ds ih =>
    intro a
    have h0 : valM (d :: ds) = d * 10 ^ ds.length + valM ds := by
      show List.foldl (fun a d => 10 * a + d) (10 * 0 + d) ds = _
      rw [ih (10 * 0 + d)]
      ring
    simp only [List.foldl_cons, ih (10 * a + d), h0, List.length_cons]
    ring

theorem valM_cons (d : Nat) (ds : List Nat) :
    valM (d :: ds) = d * 10 ^ ds.length + valM ds := by
  show List.foldl (fun a d => 10 * a + d) (10 * 0 + d) ds = _
  rw [valM_foldl ds (10 * 0 + d)]
  ring

theorem valM_append (xs ys : List Nat) :
    valM (xs ++ ys) = valM xs * 10 ^ ys.length + valM ys := by
  show List.foldl _ 0 (xs ++ ys) = _
  rw [List.foldl_append]
  exact valM_foldl ys (valM xs)

theorem valM_reverse (l : List Nat) : valM l.reverse = valLE l := by
  induction l with
  | nil => rfl
  | cons d ds ih =>
    rw [List.reverse_cons, valM_append, ih]
    show valLE ds * 10 ^ 1 + valM [d] = valLE (d :: ds)
    have : valM [d] = d := by simp [valM]
    rw [this]
    show valLE ds * 10 ^ 1 + d = d + 10 * valLE ds
    ring

theorem valM_natDigitsM (n : Nat) : valM (natDigitsM n) = n := by
  unfold natDigitsM
  split
  · rename_i h; subst h; rfl
  · rw [valM_reverse, valLE_natDigitsLE]

theorem valM_replicate_zero (k : Nat) : valM (List.replicate k 0) = 0 := by
  induction k with
  | zero => rfl
  | succ k ih =>
    rw [List.replicate_succ, valM_cons, ih]
    simp

theorem valM_replicate_zero_append (k : Nat) (l : List Nat) :
    valM (List.replicate k 0 ++ l) = valM l := by
  rw [valM_append, valM_replicate_zero]
  ring

theorem digitsAux_mem_lt : ∀ fuel n d, d ∈ digitsAux fuel n → d < 10 := by
  intro fuel
  induction fuel with
  | zero => intro n d h; simp [digitsAux] at h
  | succ fuel ih =>
    intro n d h
    by_cases hn : n = 0
    · subst hn; simp [digitsAux] at h
    · simp only [digitsAux, hn, if_false, List.mem_cons] at h
      rcases h with h | h
      · subst h; exact Nat.mod_lt _ (by norm_num)
      · exact ih _ _ h

theorem natDigitsM_mem_lt (n : Nat) : ∀ d ∈ natDigitsM n, d < 10 := by
  intro d h
  unfold natDigitsM at h
  split at h
  · simp at h; omega
  · rw [List.mem_reverse] at h
    exact digitsAux_mem_lt n n d h

theorem natDigitsM_ne_nil (n : Nat) : natDigitsM n ≠ [] := by
  unfold natDigitsM
  split
  · simp
  · rename_i h
    intro hc
    rw [List.reverse_eq_nil_iff] at hc
    cases n with
    | zero => exact h rfl
    | succ k =>
      rw [natDigitsLE] at hc
      simp [digitsAux] at hc

theorem charToDigit_digitToChar (d : Nat) (h : d < 10) :
    charToDigit (digitToChar d) = d := by
  interval_cases d <;> rfl

theorem isDigitChar_digitToChar (d : Nat) (h : d < 10) :
    isDigitChar (digitToChar d) = true := by
  interval_cases d <;> rfl

theorem map_charToDigit_renderDigits (ds : List Nat) (h : ∀ d ∈ ds, d < 10) :
    (renderDigits ds).map charToDigit = ds := by
  induction ds with
  | nil => rfl
  | cons d ds ih =>
    simp only [renderDigits, List.map_cons, List.map_map] at *
    rw [charToDigit_digitToChar d (h d (List.mem_cons_self d ds))]
    have := ih (fun x hx => h x (List.mem_cons_of_mem d hx))
    simp only [renderDigits, List.map_map] at this
    rw [this]

theorem renderDigits_all_digit (ds : List Nat) (h : ∀ d ∈ ds, d < 10) :
    ∀ c ∈ renderDigits ds, isDigitChar c = true := by
  intro c hc
  rcases List.mem_map.mp hc with ⟨d, hd, rfl⟩
  exact isDigitChar_digitToChar d (h d hd)

theorem takeWhile_all {p : Char → Bool} :
    ∀ l : List Char, (∀ c ∈ l, p c = true) → l.takeWhile p = l := by
  intro l h
  induction l with
  | nil => rfl
  | cons c cs ih =>
    have h1 := h c (List.mem_cons_self c cs)
    have h2 := ih (fun x hx => h x (List.mem_cons_of_mem c hx))
    simp [List.takeWhile_cons, h1, h2]

theorem takeWhile_append_stop {p : Char → Bool} (xs : List Char) (y : Char)
    (ys : List Char) (hxs : ∀ c ∈ xs, p c = true) (hy : p y = false) :
    (xs ++ y :: ys).takeWhile p = xs := by
  induction xs with
  | nil => simp [List.takeWhile_cons, hy]
  | cons c cs ih =>
    have h1 := hxs c (List.mem_cons_self c cs)
    have h2 := ih (fun x hx => hxs x (List.mem_cons_of_mem c hx))
    simp [List.takeWhile_cons, h1, h2]

theorem splitDecBody_digits (ws : List Char) (hw : ∀ c ∈ ws, isDigitChar c = true)
    (hne : ws ≠ []) : splitDecBody ws = some (ws, []) := by
  unfold splitDecBody
  rw [takeWhile_all ws hw]
  simp [List.drop_length, List.length_pos.mpr hne]

theorem splitDecBody_dotted (ws fs : List Char) (hw : ∀ c ∈ ws, isDigitChar c = true)
    (hne : ws ≠ []) (hf : ∀ c ∈ fs, isDigitChar c = true) :
    splitDecBody (ws ++ '.' :: fs) = some (ws, fs) := by
  unfold splitDecBody
  rw [takeWhile_append_stop ws '.' fs hw (by rfl)]
  rw [List.drop_left ws ('.' :: fs)]
  have h1 : fs.all isDigitChar = true := List.all_eq_true.mpr hf
  have h2 : 0 < ws.length + fs.length := by
    have := List.length_pos.mpr hne
    omega
  simp [h1, h2]

theorem splitDec_not_neg (cs : List Char) (h : ∀ c ∈ cs, c ≠ '-') :
    splitDec cs = (splitDecBody cs).map (fun p => (false, p.1, p.2)) := by
  unfold splitDec
  split
  · exact absurd rfl (h '-' (List.mem_cons_self _ _))
  · rfl

theorem trimFracDigits_decomp (l : List Nat) (h : l ≠ []) :
    ∃ z, l = trimFracDigits l ++ List.replicate z 0 := by
  have hsplit := List.takeWhile_append_dropWhile (fun d => d == 0) l.reverse
  have htake : l.reverse.takeWhile (fun d => d == 0) =
      List.replicate (l.reverse.takeWhile (fun d => d == 0)).length 0 := by
    rw [List.eq_replicate_iff]
    refine ⟨rfl, fun b hb => ?_⟩
    have := List.mem_takeWhile_imp hb
    simpa using this
  by_cases hr : l.reverse.dropWhile (fun d => d == 0) = []
  · have htrim : trimFracDigits l = [0] := by
      unfold trimFracDigits
      simp [hr]
    have hlrev := htake
    rw [hr, List.append_nil] at hsplit
    rw [hsplit] at hlrev
    have hl : l = List.replicate l.length 0 := by
      have h2 := congrArg List.reverse hlrev
      rwa [List.reverse_reverse, List.reverse_replicate, List.length_reverse] at h2
    have hlen : 0 < l.length := List.length_pos.mpr h
    refine ⟨l.length - 1, ?_⟩
    rw [htrim]
    conv_lhs => rw [hl]
    have h3 : l.length = (l.length - 1) + 1 := by omega
    rw [h3, List.replicate_succ]
    rfl
  · have htrim : trimFracDigits l = (l.reverse.dropWhile (fun d => d == 0)).reverse := by
      unfold trimFracDigits
      have : (l.reverse.dropWhile (fun d => d == 0)).isEmpty = false := by
        rw [Bool.eq_false_iff, Ne, List.isEmpty_iff]
        exact hr
      simp [this]
    refine ⟨(l.reverse.takeWhile (fun d => d == 0)).length, ?_⟩
    rw [htrim]
    have h4 := congrArg List.reverse hsplit
    rw [List.reverse_append, List.reverse_reverse] at h4
    conv_lhs => rw [← h4]
    congr 1
    conv_lhs => rw [htake]
    rw [List.reverse_replicate]

theorem trimFracDigits_ne_nil (l : List Nat) : trimFracDigits l ≠ [] := by
  unfold trimFracDigits
  by_cases hr : l.reverse.dropWhile (fun d => d == 0) = []
  · simp [hr]
  · have h1 : (l.reverse.dropWhile (fun d => d == 0)).isEmpty = false := by
      rw [Bool.eq_false_iff, Ne, List.isEmpty_iff]
      exact hr
    simp [h1, List.reverse_eq_nil_iff, hr]

theorem trimFracDigits_mem (l : List Nat) (hne : l ≠ []) :
    ∀ d ∈ trimFracDigits l, d ∈ l := by
  intro d hd
  obtain ⟨z, hz⟩ := trimFracDigits_decomp l hne
  rw [hz]
  exact List.mem_append_left _ hd

theorem renderDigits_ne_nil (ds : List Nat) (h : ds ≠ []) : renderDigits ds ≠ [] := by
  intro hc
  rw [renderDigits, List.map_eq_nil_iff] at hc
  exact h hc

theorem formatBody_spec (m d : Nat) (hd : d ≠ 0) :
    ∃ W T : List Nat, (∀ x ∈ W, x < 10) ∧ (∀ x ∈ T, x < 10) ∧ W ≠ [] ∧
      T.length ≤ d ∧
      formatBodyChars m d = renderDigits W ++ '.' :: renderDigits T ∧
      valM W * 10 ^ d + valM T * 10 ^ (d - T.length) = m := by
  have hPlen : d + 1 ≤ (List.replicate (d + 1 - (natDigitsM m).length) 0 ++ natDigitsM m).length := by
    rw [List.length_append, List.length_replicate]
    omega
  have hPmem : ∀ x ∈ List.replicate (d + 1 - (natDigitsM m).length) 0 ++ natDigitsM m, x < 10 := by
    intro x hx
    rcases List.mem_append.mp hx with h | h
    · rw [List.eq_of_mem_replicate h]; omega
    · exact natDigitsM_mem_lt m x h
  have hPval : valM (List.replicate (d + 1 - (natDigitsM m).length) 0 ++ natDigitsM m) = m := by
    rw [valM_replicate_zero_append, valM_natDigitsM]
  set P := List.replicate (d + 1 - (natDigitsM m).length) 0 ++ natDigitsM m with hP
  clear_value P
  refine ⟨P.take (P.length - d), trimFracDigits (P.drop (P.length - d)), ?_, ?_, ?_, ?_, ?_, ?_⟩
  case _ =>
    intro x hx
    exact hPmem x (List.take_subset _ _ hx)
  case _ =>
    intro x hx
    have hFne : P.drop (P.length - d) ≠ [] := by
      have : (P.drop (P.length - d)).length = d := by
        rw [List.length_drop]
        omega
      intro hc
      rw [hc] at this
      simp at this
      omega
    exact hPmem x (List.drop_subset _ _ (trimFracDigits_mem _ hFne x hx))
  case _ =>
    have : (P.take (P.length - d)).length = P.length - d := by
      rw [List.length_take]
      omega
    intro hc
    rw [hc] at this
    simp at this
    omega
  case _ =>
    have hFlen : (P.drop (P.length - d)).length = d := by
      rw [List.length_drop]
      omega
    have hFne : P.drop (P.length - d) ≠ [] := by
      intro hc
      rw [hc] at hFlen
      simp at hFlen
      omega
    obtain ⟨z, hz⟩ := trimFracDigits_decomp _ hFne
    have h6 := congrArg List.length hz
    rw [hFlen, List.length_append, List.length_replicate] at h6
    omega
  case _ =>
    rw [hP]
    show formatBodyChars m d = _
    simp only [formatBodyChars]
    rw [if_neg hd]
  case _ =>
    have hFlen : (P.drop (P.length - d)).length = d := by
      rw [List.length_drop]
      omega
    have hFne : P.drop (P.length - d) ≠ [] := by
      intro hc
      rw [hc] at hFlen
      simp at hFlen
      omega
    obtain ⟨z, hz⟩ := trimFracDigits_decomp _ hFne
    have hzlen := congrArg List.length hz
    rw [hFlen, List.length_append, List.length_replicate] at hzlen
    have hv2 : valM (P.drop (P.length - d)) =
        valM (trimFracDigits (P.drop (P.length - d))) * 10 ^ z := by
      conv_lhs => rw [hz]
      rw [valM_append, List.length_replicate, valM_replicate_zero]
      ring
    have hv1 : valM (P.take (P.length - d)) * 10 ^ d + valM (P.drop (P.length - d)) = m := by
      have h5 := valM_append (P.take (P.length - d)) (P.drop (P.length - d))
      rw [List.take_append_drop, hFlen, hPval] at h5
      omega
    have hdz : d - (trimFracDigits (P.drop (P.length - d))).length = z := by omega
    rw [hdz, ← hv2]
    exact hv1

theorem splitDecBody_formatBodyChars (m d : Nat) :
    ∃ w f, splitDecBody (formatBodyChars m d) = some (w, f) ∧
      f.length ≤ d ∧
      valM (w.map charToDigit) * 10 ^ d +
        valM (f.map charToDigit) * 10 ^ (d - f.length) = m := by
  by_cases hd : d = 0
  · subst hd
    refine ⟨renderDigits (natDigitsM m), [], ?_, Nat.le_refl 0, ?_⟩
    · exact splitDecBody_digits _ (renderDigits_all_digit _ (natDigitsM_mem_lt m))
        (renderDigits_ne_nil _ (natDigitsM_ne_nil m))
    · rw [map_charToDigit_renderDigits _ (natDigitsM_mem_lt m), valM_natDigitsM]
      simp [valM]
  · obtain ⟨W, T, hWmem, hTmem, hWne, hTlen, hbody, hval⟩ := formatBody_spec m d hd
    refine ⟨renderDigits W, renderDigits T, ?_, ?_, ?_⟩
    · rw [hbody]
      exact splitDecBody_dotted _ _ (renderDigits_all_digit _ hWmem)
        (renderDigits_ne_nil _ hWne) (renderDigits_all_digit _ hTmem)
    · rw [renderDigits, List.length_map]
      exact hTlen
    · rw [map_charToDigit_renderDigits _ hWmem, map_charToDigit_renderDigits _ hTmem,
        renderDigits, List.length_map]
      exact hval

theorem formatBodyChars_mem (m d : Nat) :
    ∀ c ∈ formatBodyChars m d, isDigitChar c = true ∨ c = '.' := by
  intro c hc
  by_cases hd : d = 0
  · subst hd
    exact Or.inl (renderDigits_all_digit _ (natDigitsM_mem_lt m) c hc)
  · obtain ⟨W, T, hWmem, hTmem, _, _, hbody, _⟩ := formatBody_spec m d hd
    rw [hbody] at hc
    rcases List.mem_append.mp hc with h | h
    · exact Or.inl (renderDigits_all_digit _ hWmem c h)
    · rcases List.mem_cons.mp h with h | h
      · exact Or.inr h
      · exact Or.inl (renderDigits_all_digit _ hTmem c h)

theorem splitDec_neg_cons (r : List Char) :
    splitDec ('-' :: r) = (splitDecBody r).map (fun p => (true, p.1, p.2)) := rfl

/-- Parsing a rendered amount at the same scale recovers the integer
exactly: `parseUnits(formatUnits(v, d), d) = v`. -/
theorem parseUnits_formatUnits (v : Int) (d : Nat) :
    parseUnits (formatUnits v d) d = some v := by
  obtain ⟨w, f, hsplit, hflen, hval⟩ := splitDecBody_formatBodyChars v.natAbs d
  by_cases hv : v < 0
  · have hfmt : (formatUnits v d).data = '-' :: formatBodyChars v.natAbs d := by
      simp [formatUnits, hv]
    unfold parseUnits
    rw [hfmt, splitDec_neg_cons, hsplit]
    simp only [Option.map_some']
    rw [if_pos hflen, hval, if_pos (trivial : True)]
    simp only [Option.some.injEq]
    omega
  · have hfmt : (formatUnits v d).data = formatBodyChars v.natAbs d := by
      simp [formatUnits, hv]
    have hnotneg : ∀ c ∈ formatBodyChars v.natAbs d, c ≠ '-' := by
      intro c hc
      rcases formatBodyChars_mem v.natAbs d c hc with h | h
      · intro hcontra
        rw [hcontra] at h
        simp [isDigitChar] at h
      · intro hcontra
        rw [hcontra] at h
        exact absurd h (by decide)
    unfold parseUnits
    rw [hfmt, splitDec_not_neg _ hnotneg, hsplit]
    simp only [Option.map_some']
    rw [if_pos hflen, hval, if_neg (by decide : ¬(false = true))]
    simp only [Option.some.injEq]
    omega

theorem jsBigInt_neg_cons (rest : List Char) :
    jsBigInt ⟨'-' :: rest⟩ =
      (if !rest.isEmpty && rest.all isDigitChar then
        some (-(valM (rest.map charToDigit) : Int))
      else none) := rfl

/-- `BigInt(cost.toString())` recovers the bigint: decimal rendering and
`BigInt(string)` parsing are mutually inverse. -/
theorem jsBigInt_bigIntToString (v : Int) : jsBigInt (bigIntToString v) = some v := by
  have hmem := renderDigits_all_digit (natDigitsM v.natAbs) (natDigitsM_mem_lt v.natAbs)
  have hne : renderDigits (natDigitsM v.natAbs) ≠ [] :=
    renderDigits_ne_nil _ (natDigitsM_ne_nil _)
  have hall : (renderDigits (natDigitsM v.natAbs)).all isDigitChar = true :=
    List.all_eq_true.mpr hmem
  have hval : valM ((renderDigits (natDigitsM v.natAbs)).map charToDigit) = v.natAbs := by
    rw [map_charToDigit_renderDigits _ (natDigitsM_mem_lt _), valM_natDigitsM]
  by_cases hv : v < 0
  · have hdata : bigIntToString v = ⟨'-' :: renderDigits (natDigitsM v.natAbs)⟩ := by
      simp [bigIntToString, hv]
    rw [hdata, jsBigInt_neg_cons]
    have h1 : (renderDigits (natDigitsM v.natAbs)).isEmpty = false := by
      rw [Bool.eq_false_iff, Ne, List.isEmpty_iff]
      exact hne
    rw [h1, hall]
    simp only [Bool.not_false, Bool.and_self, if_pos]
    rw [hval]
    congr 1
    omega
  · have hdata : bigIntToString v = ⟨renderDigits (natDigitsM v.natAbs)⟩ := by
      simp [bigIntToString, hv]
    rw [hdata]
    unfold jsBigInt
    split
    · rename_i heq
      exfalso
      have hx : 'x' ∈ renderDigits (natDigitsM v.natAbs) := by
        have heq2 : renderDigits (natDigitsM v.natAbs) = '0' :: 'x' :: _ := heq
        rw [heq2]
        exact List.mem_cons_of_mem _ (List.mem_cons_self _ _)
      have := hmem 'x' hx
      exact absurd this (by decide)
    · rename_i heq
      exfalso
      have hx : '-' ∈ renderDigits (natDigitsM v.natAbs) := by
        have heq2 : renderDigits (natDigitsM v.natAbs) = '-' :: _ := heq
        rw [heq2]
        exact List.mem_cons_self _ _
      have := hmem '-' hx
      exact absurd this (by decide)
    · rw [hall]
      simp only [if_pos]
      rw [hval]
      congr 1
      omega

/-! ## Claim C3: convertUnits round trip -/

/-- C3 counterexample: the round trip is not the identity on strings —
converting `"1"` from ether to wei yields `"1000000000000000000"`, and
converting that back yields `"1.0"`, which differs from `"1"`. -/
theorem C3_counterexample :
    convertUnits "1" EthUnit.ether EthUnit.wei = some "1000000000000000000" ∧
    convertUnits "1000000000000000000" EthUnit.wei EthUnit.ether = some "1.0" ∧
    ("1.0" : String) ≠ "1" := by
  refine ⟨by decide, by decide, by decide⟩

/-- C3 (amended): for every valid decimal amount A in unit U and every
pair of units U, V, the double conversion
`convertUnits(convertUnits(A, U, V), V, U)` succeeds, denotes exactly the
same quantity as A (no precision is ever lost), and equals the canonical
rendering of A at U's scale; it equals A as a string exactly when A is
already in canonical rendered form. -/
theorem C3_roundtrip_canonical (A : String) (U V : EthUnit) (W : Int)
    (h : parseUnits A (UNIT_DECIMALS U) = some W) :
    (convertUnits A U V).bind (fun s => convertUnits s V U) =
      some (formatUnits W (UNIT_DECIMALS U)) ∧
    parseUnits (formatUnits W (UNIT_DECIMALS U)) (UNIT_DECIMALS U) = some W ∧
    ((convertUnits A U V).bind (fun s => convertUnits s V U) = some A ↔
      A = formatUnits W (UNIT_DECIMALS U)) := by
  have h1 : convertUnits A U V = some (formatUnits W (UNIT_DECIMALS V)) := by
    unfold convertUnits
    rw [h]
    rfl
  have h2 : convertUnits (formatUnits W (UNIT_DECIMALS V)) V U =
      some (formatUnits W (UNIT_DECIMALS U)) := by
    unfold convertUnits
    rw [parseUnits_formatUnits]
    rfl
  have h3 : (convertUnits A U V).bind (fun s => convertUnits s V U) =
      some (formatUnits W (UNIT_DECIMALS U)) := by
    rw [h1]
    simpa using h2
  refine ⟨h3, parseUnits_formatUnits W _, ?_⟩
  constructor
  · intro h4
    rw [h3] at h4
    exact (Option.some.inj h4).symm
  · intro h4
    rw [h3, ← h4]

/-- C3 witness: the amended round trip at A = "1.5", U = ether, V = wei. -/
theorem C3_roundtrip_canonical_witness :
    parseUnits "1.5" (UNIT_DECIMALS EthUnit.ether) = some 1500000000000000000 ∧
    (convertUnits "1.5" EthUnit.ether EthUnit.wei).bind
        (fun s => convertUnits s EthUnit.wei EthUnit.ether) =
      some (formatUnits 1500000000000000000 (UNIT_DECIMALS EthUnit.ether)) :=
  ⟨by decide,
   (C3_roundtrip_canonical "1.5" EthUnit.ether EthUnit.wei 1500000000000000000
      (by decide)).1⟩

/-! ## Claim C4: calculateTxCost -/

/-- C4 counterexample: `calculateTxCost(-1, 2)` does not fail — there is
no sign validation anywhere in the function — and it returns the negative
cost `-2` base units. -/
theorem C4_counterexample :
    calculateTxCost (-1) 2 = ⟨"-2", "-0.000000002", "-0.000000000000000002"⟩ ∧
    jsBigInt (calculateTxCost (-1) 2).wei = some (-2) ∧ ((-2 : Int) < 0) := by
  refine ⟨by decide, by decide, by decide⟩

/-- C4 (amended): `calculateTxCost` is total: it always returns the exact
product `gasUsed * gasPrice` rendered at the wei, gwei and ether scales
(each rendering parses back to the exact product), it performs no
negativity validation, and the cost is negative whenever one operand is
negative and the other positive (in either order); a zero operand yields
cost zero, and only for nonnegative operands is the cost nonnegative. -/
theorem C4_cost_rendering (gasUsed gasPrice : Int) :
    jsBigInt (calculateTxCost gasUsed gasPrice).wei = some (gasUsed * gasPrice) ∧
    parseUnits (calculateTxCost gasUsed gasPrice).gwei 9 = some (gasUsed * gasPrice) ∧
    parseUnits (calculateTxCost gasUsed gasPrice).eth 18 = some (gasUsed * gasPrice) ∧
    (0 ≤ gasUsed → 0 ≤ gasPrice → 0 ≤ gasUsed * gasPrice) ∧
    (gasUsed < 0 → 0 < gasPrice → gasUsed * gasPrice < 0) ∧
    (0 < gasUsed → gasPrice < 0 → gasUsed * gasPrice < 0) ∧
    (gasUsed = 0 ∨ gasPrice = 0 → gasUsed * gasPrice = 0) := by
  refine ⟨jsBigInt_bigIntToString _, parseUnits_formatUnits _ 9,
    parseUnits_formatUnits _ 18, ?_, ?_, ?_, ?_⟩
  · intro h1 h2
    exact mul_nonneg h1 h2
  · intro h1 h2
    exact mul_neg_of_neg_of_pos h1 h2
  · intro h1 h2
    exact mul_neg_of_pos_of_neg h1 h2
  · intro h1
    rcases h1 with h1 | h1
    · rw [h1, zero_mul]
    · rw [h1, mul_zero]

/-- C4 witness: the amended statement applied at 21000 gas, 1 gwei. -/
theorem C4_cost_rendering_witness :
    jsBigInt (calculateTxCost 21000 1000000000).wei =
      some ((21000 : Int) * 1000000000) ∧
    (0 : Int) ≤ 21000 * 1000000000 :=
  ⟨(C4_cost_rendering 21000 1000000000).1,
   (C4_cost_rendering 21000 1000000000).2.2.2.1 (by decide) (by decide)⟩

/-! ## Claim C9: getNetworkConfig fallback -/

/-- C9 counterexample: `NETWORKS['toString']` resolves through the
prototype chain to the inherited `Object.prototype.toString`, a truthy
non-config value, so `getNetworkConfig('toString')` returns it instead of
falling back to the mainnet configuration. -/
theorem C9_counterexample :
    getNetworkConfig "toString" none = JsLookup.protoMember "toString" ∧
    getNetworkConfig "toString" none ≠ JsLookup.config mainnetConfig := by
  exact ⟨rfl, by decide⟩

/-- C9 (corrected): for every identifier that is not `'mainnet'`, not
`'sepolia'`, not `'custom'` with a truthy URL, and not an inherited
`Object.prototype` property name, `getNetworkConfig` silently returns the
mainnet configuration — in particular `'custom'` with an empty or missing
URL does.  For the twelve `Object.prototype` property names, however, the
indexed read yields the inherited truthy member, which is returned as the
"config" although it is not a `NetworkConfig` at all. -/
theorem C9_mainnet_fallback (network : String) (customRpcUrl : Option String)
    (h3 : ¬(network = "custom" ∧ truthyS customRpcUrl = true)) :
    (network ≠ "mainnet" → network ≠ "sepolia" → network ∉ objectPrototypeKeys →
      getNetworkConfig network customRpcUrl = JsLookup.config mainnetConfig) ∧
    (network ∈ objectPrototypeKeys →
      getNetworkConfig network customRpcUrl = JsLookup.protoMember network ∧
      ∀ c : NetworkConfig, getNetworkConfig network customRpcUrl ≠ JsLookup.config c) := by
  have hc : (network == "custom" && truthyS customRpcUrl) = false := by
    by_cases h : network = "custom"
    · subst h
      have ht : truthyS customRpcUrl = false := by
        cases ht : truthyS customRpcUrl
        · rfl
        · exact absurd ⟨rfl, ht⟩ h3
      simp [ht]
    · have hb : (network == "custom") = false := by
        simp [h]
      simp [hb]
  constructor
  · intro h1 h2 hnp
    have e1 : (network == "mainnet") = false := by simp [h1]
    have e2 : (network == "sepolia") = false := by simp [h2]
    have hl : NETWORKS_lookup network = JsLookup.undefinedRead := by
      unfold NETWORKS_lookup
      simp [e1, e2, hnp]
    unfold getNetworkConfig
    rw [hc, hl]
    simp
  · intro hmem
    have key : getNetworkConfig network customRpcUrl = JsLookup.protoMember network := by
      have hm := hmem
      simp only [objectPrototypeKeys, List.mem_cons, List.not_mem_nil, or_false] at hm
      rcases hm with rfl | rfl | rfl | rfl | rfl | rfl | rfl | rfl | rfl | rfl | rfl | rfl <;>
        rfl
    refine ⟨key, fun c h => ?_⟩
    rw [key] at h
    exact JsLookup.noConfusion h

/-- C9 witness: concrete instances — an unknown identifier and 'custom'
with a missing or empty URL all fall back to mainnet, while the prototype
property name 'toString' yields the inherited member instead. -/
theorem C9_mainnet_fallback_witness :
    getNetworkConfig "goerli" none = JsLookup.config mainnetConfig ∧
    getNetworkConfig "custom" none = JsLookup.config mainnetConfig ∧
    getNetworkConfig "custom" (some "") = JsLookup.config mainnetConfig ∧
    getNetworkConfig "toString" none = JsLookup.protoMember "toString" :=
  ⟨(C9_mainnet_fallback "goerli" none (by decide)).1 (by decide) (by decide) (by decide),
   (C9_mainnet_fallback "custom" none (by decide)).1 (by decide) (by decide) (by decide),
   (C9_mainnet_fallback "custom" (some "") (by decide)).1
     (by decide) (by decide) (by decide),
   ((C9_mainnet_fallback "toString" none (by decide)).2 (by decide)).1⟩

/-! ## Claim C10: a stored watermark of 0 is treated as absent -/

theorem pollNewBlock_some_zero_eq (p : Provider) (net : String) (st : StaticData) :
    ((pollNewBlock p net { st with lastBlock := some 0 }).1 =
      (pollNewBlock p net { st with lastBlock := none }).1) ∧
    (∀ evs st1, pollNewBlock p net { st with lastBlock := some 0 } = (.ok evs, st1) →
      pollNewBlock p net { st with lastBlock := none } = (.ok evs, st1)) := by
  cases hbn : p.getBlockNumber with
  | error e =>
    constructor
    · simp [pollNewBlock, hbn]
    · intro evs st1 h
      simp [pollNewBlock, hbn] at h
  | ok current =>
    have hor : orElse0 (some 0) (current - 1) = current - 1 := rfl
    have hor2 : orElse0 (none : Option Int) (current - 1) = current - 1 := rfl
    have hadd : current - 1 + 1 = current := by ring
    have hgt : current - 1 < current := by omega
    constructor
    · simp only [pollNewBlock, hbn, hor, hor2, hadd]
      rw [if_pos hgt, if_pos hgt]
      cases hs : scanNewBlock p net (intRange current current) <;> rfl
    · intro evs st1 h
      simp only [pollNewBlock, hbn, hor, hor2, hadd] at h ⊢
      rw [if_pos hgt] at h ⊢
      cases hs : scanNewBlock p net (intRange current current) with
      | error e =>
        rw [hs] at h
        simp at h
      | ok evs2 =>
        rw [hs] at h
        exact h

theorem pollNewL1Batch_some_zero_eq (p : Provider) (net : String) (st : StaticData) :
    ((pollNewL1Batch p net { st with lastL1Batch := some 0 }).1 =
      (pollNewL1Batch p net { st with lastL1Batch := none }).1) ∧
    (∀ evs st1, pollNewL1Batch p net { st with lastL1Batch := some 0 } = (.ok evs, st1) →
      pollNewL1Batch p net { st with lastL1Batch := none } = (.ok evs, st1)) := by
  cases hbn : p.getL1BatchNumber with
  | error e =>
    constructor
    · simp [pollNewL1Batch, hbn]
    · intro evs st1 h
      simp [pollNewL1Batch, hbn] at h
  | ok current =>
    have hor : orElse0 (some 0) (current - 1) = current - 1 := rfl
    have hor2 : orElse0 (none : Option Int) (current - 1) = current - 1 := rfl
    have hadd : current - 1 + 1 = current := by ring
    have hgt : current - 1 < current := by omega
    constructor
    · simp only [pollNewL1Batch, hbn, hor, hor2, hadd]
      rw [if_pos hgt, if_pos hgt]
      cases hs : scanNewL1Batch p net (intRange current current) <;> rfl
    · intro evs st1 h
      simp only [pollNewL1Batch, hbn, hor, hor2, hadd] at h ⊢
      rw [if_pos hgt] at h ⊢
      cases hs : scanNewL1Batch p net (intRange current current) with
      | error e =>
        rw [hs] at h
        simp at h
      | ok evs2 =>
        rw [hs] at h
        exact h

/-- C10: a persisted `lastBlock` / `lastL1Batch` watermark equal to 0 is
indistinguishable from an absent one — the truthiness defaulting makes the
poll re-seed the watermark to current tip minus one instead of scanning
from block/batch 1: the invocation's output always coincides with the
absent-cursor output, and on success the whole result (events and final
state) coincides. -/
theorem C10_zero_watermark (p : Provider) (net : String) (st : StaticData) :
    ((pollNewBlock p net { st with lastBlock := some 0 }).1 =
      (pollNewBlock p net { st with lastBlock := none }).1) ∧
    ((pollNewL1Batch p net { st with lastL1Batch := some 0 }).1 =
      (pollNewL1Batch p net { st with lastL1Batch := none }).1) ∧
    (∀ evs st1, pollNewBlock p net { st with lastBlock := some 0 } = (.ok evs, st1) →
      pollNewBlock p net { st with lastBlock := none } = (.ok evs, st1)) ∧
    (∀ evs st1, pollNewL1Batch p net { st with lastL1Batch := some 0 } = (.ok evs, st1) →
      pollNewL1Batch p net { st with lastL1Batch := none } = (.ok evs, st1)) :=
  ⟨(pollNewBlock_some_zero_eq p net st).1, (pollNewL1Batch_some_zero_eq p net st).1,
   (pollNewBlock_some_zero_eq p net st).2, (pollNewL1Batch_some_zero_eq p net st).2⟩

/-- C10 witness: concrete run — with a stored watermark of 0 and tip 5
the scan covers only block 5, exactly as with no cursor at all. -/
theorem C10_zero_watermark_witness :
    pollNewBlock (constProvider 5 0) "net" { emptyStatic with lastBlock := none } =
      (.ok [], { emptyStatic with lastBlock := some (5 : Int) }) :=
  (C10_zero_watermark (constProvider 5 0) "net" emptyStatic).2.2.1 []
    { emptyStatic with lastBlock := some (5 : Int) } rfl

/-! ## Claim C6: balanceChange comparison and snapshot update -/

/-- C6 counterexample: with a stored snapshot `"07"` and current balance
7 the two snapshots are equal as arbitrary-precision integers
(`BigInt("07") = BigInt("7") = 7`), yet an event is emitted, because the
source compares `currentBalance.toString() !== lastBalance` — plain string
inequality, not integer inequality. -/
theorem C6_counterexample :
    jsBigInt "07" = some 7 ∧ jsBigInt "7" = some 7 ∧
    (pollBalanceChange (constProvider 5 7) "net" (fun _ => true) "0xabc"
        { emptyStatic with lastBalance := some "07" }).1 =
      .ok [mkBalanceChangeEvent "net" "0xabc" "07" 7 7] ∧
    (pollBalanceChange (constProvider 5 7) "net" (fun _ => true) "0xabc"
        { emptyStatic with lastBalance := some "07" }).2.lastBalance = some "7" := by
  refine ⟨by decide, by decide, rfl, rfl⟩

/-- C6 (amended): a balanceChange poll emits exactly one event precisely
when a previous snapshot exists and the canonical decimal rendering of the
current balance differs from the stored snapshot *string* (so an
integer-equal but non-canonically represented snapshot does emit); for
snapshots written by the code itself the two criteria coincide.  After
every invocation whose balance fetch and snapshot decoding succeed, the
stored snapshot equals the canonical rendering of the current balance. -/
theorem C6_balance_change (p : Provider) (net : String) (isAddr : String → Bool)
    (a : String) (st : StaticData) (cur : Int)
    (hv : isAddr a = true) (hb : p.getBalance a = .ok cur) :
    (st.lastBalance = none →
      pollBalanceChange p net isAddr a st =
        (.ok [], { st with lastBalance := some (bigIntToString cur) })) ∧
    (∀ last prev, st.lastBalance = some last → jsBigInt last = some prev →
      pollBalanceChange p net isAddr a st =
        (.ok (if bigIntToString cur = last then []
              else [mkBalanceChangeEvent net a last prev cur]),
         { st with lastBalance := some (bigIntToString cur) })) := by
  constructor
  · intro h
    simp only [pollBalanceChange, hv, Bool.not_true, Bool.false_eq_true, if_false, hb, h]
  · intro last prev hlast hprev
    by_cases hc : bigIntToString cur = last
    · have hbe : (bigIntToString cur != last) = false := by
        simp [hc]
      simp only [pollBalanceChange, hv, Bool.not_true, Bool.false_eq_true, if_false, hb,
        hlast, hbe, if_pos hc]
    · have hbe : (bigIntToString cur != last) = true := by
        simp [hc]
      simp only [pollBalanceChange, hv, Bool.not_true, Bool.false_eq_true, if_false, hb,
        hlast, hbe, hprev, if_neg hc]
      rw [if_pos (trivial : True)]

/-- C6 witness: first poll stores the snapshot without emitting. -/
theorem C6_balance_change_witness :
    pollBalanceChange (constProvider 5 9) "net" (fun _ => true) "0xabc" emptyStatic =
      (.ok [], { emptyStatic with lastBalance := some "9" }) :=
  (C6_balance_change (constProvider 5 9) "net" (fun _ => true) "0xabc" emptyStatic 9
    rfl rfl).1 rfl

/-! ## Claim C7: address validation vs RPC round-trips -/

/-- C7 counterexample: for an address the validator rejects, the
`account`/`getBalance` item has already issued the `getNetwork` RPC
round-trip of client creation before the validation error, and the
`contract`/`getCode` item issues `eth_getCode` with the invalid address —
no validation exists in that branch at all. -/
theorem C7_counterexample :
    executeAccountItem (fun _ => false) AccountOp.getBalance "0xinvalid" =
      ([RpcCall.getNetwork], true) ∧
    executeContractGetCode (fun _ => false) "0xinvalid" =
      ([RpcCall.getNetwork, RpcCall.rpcGetCode "0xinvalid"], false) :=
  ⟨rfl, rfl⟩

/-- C7 (amended): only the `account` resource operations validate the
address before their own operation RPC call — and even there the
`getNetwork` request of client creation is issued first; the `contract`
resource's `getCode` operation issues its RPC for any address without
validation. -/
theorem C7_validation_scope (isAddr : String → Bool) (op : AccountOp) (address : String)
    (h : isAddr address = false) :
    executeAccountItem isAddr op address = ([RpcCall.getNetwork], true) ∧
    (∀ op2 addr2, (executeAccountItem isAddr op2 addr2).1.head? = some RpcCall.getNetwork) ∧
    executeContractGetCode isAddr address =
      ([RpcCall.getNetwork, RpcCall.rpcGetCode address], false) := by
  refine ⟨?_, ?_, rfl⟩
  · unfold executeAccountItem
    rw [h]
    rfl
  · intro op2 addr2
    unfold executeAccountItem
    by_cases h2 : isAddr addr2 = true
    · rw [h2]
      rfl
    · rw [Bool.eq_false_iff.mpr h2]
      rfl

/-- C7 witness: the amended statement at a concrete rejecting validator. -/
theorem C7_validation_scope_witness :
    executeAccountItem (fun _ => false) AccountOp.getCode "0xzz" =
      ([RpcCall.getNetwork], true) :=
  (C7_validation_scope (fun _ => false) AccountOp.getCode "0xzz" rfl).1

/-! ## Range lemmas -/

theorem intRange_nil (lo hi : Int) (h : hi < lo) : intRange lo hi = [] := by
  unfold intRange
  have h0 : (hi + 1 - lo).toNat = 0 := by omega
  rw [h0]
  rfl

theorem intRange_mem (lo hi n : Int) (h : n ∈ intRange lo hi) : lo ≤ n ∧ n ≤ hi := by
  unfold intRange at h
  rcases List.mem_map.mp h with ⟨i, hi2, rfl⟩
  rw [List.mem_range] at hi2
  omega

theorem intRange_mem_of (lo hi n : Int) (h1 : lo ≤ n) (h2 : n ≤ hi) :
    n ∈ intRange lo hi := by
  unfold intRange
  refine List.mem_map.mpr ⟨(n - lo).toNat, List.mem_range.mpr (by omega), by omega⟩

theorem orElse0_none (d : Int) : orElse0 none d = d := rfl

/-! ## Scan lemmas: every emitted event comes from the scanned range -/

theorem scanNewBlock_numbers (p : Provider) (net : String) (hwb : wbBlocks p) :
    ∀ l evs, scanNewBlock p net l = .ok evs →
      ∀ e ∈ evs, ∃ n ∈ l, e.blockNumber = n := by
  intro l
  induction l with
  | nil =>
    intro evs hs e he
    simp only [scanNewBlock] at hs
    injection hs with h1
    subst h1
    simp at he
  | cons m ms ih =>
    intro evs hs e he
    simp only [scanNewBlock] at hs
    cases hgb : p.getBlock m with
    | error e2 =>
      rw [hgb] at hs
      simp at hs
    | ok ob =>
      rw [hgb] at hs
      cases ob with
      | none =>
        obtain ⟨n, hn, he2⟩ := ih evs hs e he
        exact ⟨n, List.mem_cons_of_mem m hn, he2⟩
      | some blk =>
        cases hrec : scanNewBlock p net ms with
        | error e2 =>
          rw [hrec] at hs
          simp at hs
        | ok rest =>
          rw [hrec] at hs
          injection hs with h1
          subst h1
          rcases List.mem_cons.mp he with rfl | he2
          · exact ⟨m, List.mem_cons_self m ms, hwb m blk hgb⟩
          · obtain ⟨n, hn, he3⟩ := ih rest hrec e he2
            exact ⟨n, List.mem_cons_of_mem m hn, he3⟩

theorem scanNewL1Batch_numbers (p : Provider) (net : String) (hwb : wbDetails p) :
    ∀ l evs, scanNewL1Batch p net l = .ok evs →
      ∀ e ∈ evs, ∃ n ∈ l, e.batchNumber = n := by
  intro l
  induction l with
  | nil =>
    intro evs hs e he
    simp only [scanNewL1Batch] at hs
    injection hs with h1
    subst h1
    simp at he
  | cons m ms ih =>
    intro evs hs e he
    simp only [scanNewL1Batch] at hs
    cases hgb : p.getL1BatchDetails m with
    | error e2 =>
      rw [hgb] at hs
      simp at hs
    | ok details =>
      rw [hgb] at hs
      cases hrec : scanNewL1Batch p net ms with
      | error e2 =>
        rw [hrec] at hs
        simp at hs
      | ok rest =>
        rw [hrec] at hs
        injection hs with h1
        subst h1
        rcases List.mem_cons.mp he with rfl | he2
        · exact ⟨m, List.mem_cons_self m ms, hwb m details hgb⟩
        · obtain ⟨n, hn, he3⟩ := ih rest hrec e he2
          exact ⟨n, List.mem_cons_of_mem m hn, he3⟩

theorem scanEth_numbers (p : Provider) (net : String) (dir : EthDirection)
    (watch : String) (hwb : wbBlocksTx p) :
    ∀ l evs, scanEth p net dir watch l = .ok evs →
      ∀ e ∈ evs, ∃ n ∈ l, e.blockNumber = n := by
  intro l
  induction l with
  | nil =>
    intro evs hs e he
    simp only [scanEth] at hs
    injection hs with h1
    subst h1
    simp at he
  | cons m ms ih =>
    intro evs hs e he
    simp only [scanEth] at hs
    cases hgb : p.getBlockWithTx m with
    | error e2 =>
      rw [hgb] at hs
      simp at hs
    | ok ob =>
      rw [hgb] at hs
      cases hrec : scanEth p net dir watch ms with
      | error e2 =>
        rw [hrec] at hs
        simp at hs
      | ok rest =>
        rw [hrec] at hs
        have hmemrest : ∀ e2 ∈ rest, ∃ n ∈ m :: ms, e2.blockNumber = n := by
          intro e2 he2
          obtain ⟨n, hn, he3⟩ := ih rest hrec e2 he2
          exact ⟨n, List.mem_cons_of_mem m hn, he3⟩
        cases ob with
        | none =>
          injection hs with h1
          subst h1
          exact hmemrest e he
        | some b =>
          have hs2 : (match b.prefetchedTransactions with
              | some txs =>
                Except.ok ((txs.filter (matchesWatch dir watch)).map
                  (mkEthEvent net dir b.number) ++ rest)
              | none => Except.ok rest) = Except.ok evs := hs
          cases hpf : b.prefetchedTransactions with
          | none =>
            rw [hpf] at hs2
            injection hs2 with h1
            subst h1
            exact hmemrest e he
          | some txs =>
            rw [hpf] at hs2
            injection hs2 with h1
            subst h1
            rcases List.mem_append.mp he with hin | hin
            · rcases List.mem_map.mp hin with ⟨tx, htx, rfl⟩
              refine ⟨m, List.mem_cons_self m ms, ?_⟩
              show b.number = m
              exact hwb m b hgb
            · exact hmemrest e hin

theorem processTokenLog_blockNumber (net ca fa : String) (log : Log)
    (ev : TokenTransferEvent) (h : processTokenLog net ca fa log = .ok (some ev)) :
    ev.blockNumber = log.blockNumber := by
  unfold processTokenLog at h
  split at h
  · split at h
    · simp at h
    · split at h
      · simp at h
      · injection h with h1
        injection h1 with h2
        rw [← h2]
  · simp at h

theorem scanTokenLogs_numbers (net ca fa : String) :
    ∀ logs evs, scanTokenLogs net ca fa logs = .ok evs →
      ∀ e ∈ evs, ∃ log ∈ logs, e.blockNumber = log.blockNumber := by
  intro logs
  induction logs with
  | nil =>
    intro evs hs e he
    simp only [scanTokenLogs] at hs
    injection hs with h1
    subst h1
    simp at he
  | cons log rest ih =>
    intro evs hs e he
    simp only [scanTokenLogs] at hs
    cases hpl : processTokenLog net ca fa log with
    | error e2 =>
      rw [hpl] at hs
      simp at hs
    | ok oev =>
      rw [hpl] at hs
      cases hrec : scanTokenLogs net ca fa rest with
      | error e2 =>
        rw [hrec] at hs
        simp at hs
      | ok evs2 =>
        rw [hrec] at hs
        have hmemrest : ∀ e2 ∈ evs2, ∃ l2 ∈ log :: rest, e2.blockNumber = l2.blockNumber := by
          intro e2 he2
          obtain ⟨l2, hl2, he3⟩ := ih evs2 hrec e2 he2
          exact ⟨l2, List.mem_cons_of_mem log hl2, he3⟩
        cases oev with
        | none =>
          injection hs with h1
          subst h1
          exact hmemrest e he
        | some ev1 =>
          have hs2 : Except.ok (ev1 :: evs2) = Except.ok evs := hs
          injection hs2 with h1
          subst h1
          rcases List.mem_cons.mp he with rfl | he2
          · exact ⟨log, List.mem_cons_self log rest,
              processTokenLog_blockNumber net ca fa log e hpl⟩
          · exact hmemrest e he2

theorem scanNftLogs_numbers (net ca fa : String) :
    ∀ logs evs, scanNftLogs net ca fa logs = .ok evs →
      ∀ e ∈ evs, ∃ log ∈ logs, e.blockNumber = log.blockNumber := by
  intro logs
  induction logs with
  | nil =>
    intro evs hs e he
    simp only [scanNftLogs] at hs
    injection hs with h1
    subst h1
    simp at he
  | cons log rest ih =>
    intro evs hs e he
    have hmemrest : ∀ evs2, scanNftLogs net ca fa rest = .ok evs2 →
        ∀ e2 ∈ evs2, ∃ l2 ∈ log :: rest, e2.blockNumber = l2.blockNumber := by
      intro evs2 hrec e2 he2
      obtain ⟨l2, hl2, he3⟩ := ih evs2 hrec e2 he2
      exact ⟨l2, List.mem_cons_of_mem log hl2, he3⟩
    simp only [scanNftLogs] at hs
    split at hs
    · split at hs
      · simp at hs
      · split at hs
        · simp at hs
        · rename_i evs2 hrec
          split at hs
          · injection hs with h1
            subst h1
            exact hmemrest _ hrec e he
          · injection hs with h1
            subst h1
            rcases List.mem_cons.mp he with rfl | he2
            · exact ⟨log, List.mem_cons_self log rest, rfl⟩
            · exact hmemrest _ hrec e he2
    · exact hmemrest _ hs e he

theorem scanContractLogs_numbers (net ca : String) (iface : InterfaceModel) :
    ∀ logs, ∀ e ∈ scanContractLogs net ca iface logs,
      ∃ log ∈ logs, e.blockNumber = log.blockNumber := by
  intro logs
  induction logs with
  | nil =>
    intro e he
    simp [scanContractLogs] at he
  | cons log rest ih =>
    intro e he
    simp only [scanContractLogs] at he
    cases hpl : iface.parseLog log with
    | none =>
      rw [hpl] at he
      obtain ⟨l2, hl2, he2⟩ := ih e he
      exact ⟨l2, List.mem_cons_of_mem log hl2, he2⟩
    | some decoded =>
      rw [hpl] at he
      rcases List.mem_cons.mp he with rfl | he2
      · exact ⟨log, List.mem_cons_self log rest, rfl⟩
      · obtain ⟨l2, hl2, he3⟩ := ih e he2
        exact ⟨l2, List.mem_cons_of_mem log hl2, he3⟩

theorem scanFinalized_numbers (p : Provider) (net : String) (hwb : wbDetails p) :
    ∀ l st evs st1, scanFinalized p net l st = (.ok evs, st1) →
      ∀ e ∈ evs, ∃ n ∈ l, e.batchNumber = n := by
  intro l
  induction l with
  | nil =>
    intro st evs st1 hs e he
    simp only [scanFinalized] at hs
    injection hs with h1 h2
    injection h1 with h3
    subst h3
    simp at he
  | cons m ms ih =>
    intro st evs st1 hs e he
    simp only [scanFinalized] at hs
    split at hs
    · simp at hs
    · rename_i details heq
      split at hs
      · split at hs
        · simp at hs
        · rename_i rest st2 hrec
          injection hs with h1 h2
          injection h1 with h3
          subst h3
          rcases List.mem_cons.mp he with rfl | he2
          · refine ⟨m, List.mem_cons_self m ms, ?_⟩
            show details.number = m
            exact hwb m details heq
          · obtain ⟨n, hn, he3⟩ := ih _ rest st2 hrec e he2
            exact ⟨n, List.mem_cons_of_mem m hn, he3⟩
      · obtain ⟨n, hn, he3⟩ := ih st evs st1 hs e he
        exact ⟨n, List.mem_cons_of_mem m hn, he3⟩

/-! ## First-poll (empty cursor) lemmas -/

theorem pollNewBlock_first (p : Provider) (net : String) (st : StaticData) (c : Int)
    (hwb : wbBlocks p) (h1 : st.lastBlock = none) (hc : p.getBlockNumber = .ok c)
    (evs : List NewBlockEvent) (st1 : StaticData)
    (h : pollNewBlock p net st = (.ok evs, st1)) :
    (∀ e ∈ evs, e.blockNumber = c) ∧ st1.lastBlock = some c := by
  simp only [pollNewBlock, hc, h1, orElse0_none] at h
  split at h
  · split at h
    · simp at h
    · rename_i evs2 hs
      injection h with h1' h2'
      injection h1' with h3'
      subst h3'
      refine ⟨?_, by rw [← h2']⟩
      intro e he
      obtain ⟨n, hn, he2⟩ := scanNewBlock_numbers p net hwb _ _ hs e he
      obtain ⟨ha, hb⟩ := intRange_mem _ _ n hn
      omega
  · exfalso
    omega

theorem pollNewL1Batch_first (p : Provider) (net : String) (st : StaticData) (cb : Int)
    (hwb : wbDetails p) (h2 : st.lastL1Batch = none) (hcb : p.getL1BatchNumber = .ok cb)
    (evs : List NewL1BatchEvent) (st1 : StaticData)
    (h : pollNewL1Batch p net st = (.ok evs, st1)) :
    (∀ e ∈ evs, e.batchNumber = cb) ∧ st1.lastL1Batch = some cb := by
  simp only [pollNewL1Batch, hcb, h2, orElse0_none] at h
  split at h
  · split at h
    · simp at h
    · rename_i evs2 hs
      injection h with h1' h2'
      injection h1' with h3'
      subst h3'
      refine ⟨?_, by rw [← h2']⟩
      intro e he
      obtain ⟨n, hn, he2⟩ := scanNewL1Batch_numbers p net hwb _ _ hs e he
      obtain ⟨ha, hb⟩ := intRange_mem _ _ n hn
      omega
  · exfalso
    omega

theorem pollEthTransfer_first (p : Provider) (net : String) (isAddr : String → Bool)
    (dir : EthDirection) (a : String) (st : StaticData) (c : Int)
    (hwb : wbBlocksTx p) (h3 : st.lastCheckedBlock = none) (hv : isAddr a = true)
    (hc : p.getBlockNumber = .ok c)
    (evs : List EthTransferEvent) (st1 : StaticData)
    (h : pollEthTransfer p net isAddr dir a st = (.ok evs, st1)) :
    (∀ e ∈ evs, e.blockNumber = c) ∧ st1.lastCheckedBlock = some c := by
  simp only [pollEthTransfer, hv, Bool.not_true, Bool.false_eq_true, if_false,
    hc, h3, orElse0_none] at h
  split at h
  · split at h
    · simp at h
    · rename_i evs2 hs
      injection h with h1' h2'
      injection h1' with h3'
      subst h3'
      refine ⟨?_, by rw [← h2']⟩
      intro e he
      obtain ⟨n, hn, he2⟩ := scanEth_numbers p net dir a hwb _ _ hs e he
      obtain ⟨ha, hb⟩ := intRange_mem _ _ n hn
      omega
  · exfalso
    omega

theorem pollTokenTransfer_first (p : Provider) (net : String) (ca fa : String)
    (st : StaticData) (c : Int)
    (hwb : wbLogs p) (h4 : st.lastTokenBlock = none) (hc : p.getBlockNumber = .ok c)
    (evs : List TokenTransferEvent) (st1 : StaticData)
    (h : pollTokenTransfer p net ca fa st = (.ok evs, st1)) :
    (∀ e ∈ evs, e.blockNumber = c) ∧ st1.lastTokenBlock = some c := by
  simp only [pollTokenTransfer, hc, h4, orElse0_none] at h
  split at h
  · split at h
    · simp at h
    · rename_i logs hlogs
      split at h
      · simp at h
      · rename_i evs2 hs
        injection h with h1' h2'
        injection h1' with h3'
        subst h3'
        refine ⟨?_, by rw [← h2']⟩
        intro e he
        obtain ⟨log, hlog, he2⟩ := scanTokenLogs_numbers net ca fa _ _ hs e he
        obtain ⟨ha, hb⟩ := hwb _ logs hlogs log hlog
        have ha2 : c - 1 + 1 ≤ log.blockNumber := ha
        have hb2 : log.blockNumber ≤ c := hb
        omega
  · exfalso
    omega

theorem pollNftTransfer_first (p : Provider) (net : String) (ca fa : String)
    (st : StaticData) (c : Int)
    (hwb : wbLogs p) (h5 : st.lastNftBlock = none) (hc : p.getBlockNumber = .ok c)
    (evs : List NftTransferEvent) (st1 : StaticData)
    (h : pollNftTransfer p net ca fa st = (.ok evs, st1)) :
    (∀ e ∈ evs, e.blockNumber = c) ∧ st1.lastNftBlock = some c := by
  simp only [pollNftTransfer, hc, h5, orElse0_none] at h
  split at h
  · split at h
    · simp at h
    · rename_i logs hlogs
      split at h
      · simp at h
      · rename_i evs2 hs
        injection h with h1' h2'
        injection h1' with h3'
        subst h3'
        refine ⟨?_, by rw [← h2']⟩
        intro e he
        obtain ⟨log, hlog, he2⟩ := scanNftLogs_numbers net ca fa _ _ hs e he
        obtain ⟨ha, hb⟩ := hwb _ logs hlogs log hlog
        have ha2 : c - 1 + 1 ≤ log.blockNumber := ha
        have hb2 : log.blockNumber ≤ c := hb
        omega
  · exfalso
    omega

theorem pollContractEvent_first (p : Provider) (net : String)
    (ifaceOf : String → Except Unit InterfaceModel) (ca abi : String)
    (st : StaticData) (c : Int)
    (hwb : wbLogs p) (h6 : st.lastEventBlock = none) (hc : p.getBlockNumber = .ok c)
    (evs : List ContractEventItem) (st1 : StaticData)
    (h : pollContractEvent p net ifaceOf ca abi st = (.ok evs, st1)) :
    (∀ e ∈ evs, e.blockNumber = c) ∧ st1.lastEventBlock = some c := by
  simp only [pollContractEvent, hc, h6, orElse0_none] at h
  split at h
  · split at h
    · simp at h
    · rename_i iface hif
      split at h
      · injection h with h1' h2'
        injection h1' with h3'
        subst h3'
        exact ⟨fun e he => absurd he (List.not_mem_nil e), by rw [← h2']⟩
      · rename_i frag fr2 hfr
        split at h
        · split at h
          · simp at h
          · rename_i logs hlogs
            injection h with h1' h2'
            injection h1' with h3'
            subst h3'
            refine ⟨?_, by rw [← h2']⟩
            intro e he
            obtain ⟨log, hlog, he2⟩ := scanContractLogs_numbers net ca iface _ e he
            obtain ⟨ha, hb⟩ := hwb _ logs hlogs log hlog
            have ha2 : c - 1 + 1 ≤ log.blockNumber := ha
            have hb2 : log.blockNumber ≤ c := hb
            omega
        · injection h with h1' h2'
          injection h1' with h3'
          subst h3'
          exact ⟨fun e he => absurd he (List.not_mem_nil e), by rw [← h2']⟩
  · exfalso
    omega

theorem pollBlockFinalized_first (p : Provider) (net : String)
    (st : StaticData) (cb : Int)
    (hwb : wbDetails p) (h7 : st.lastFinalizedBatch = none)
    (hcb : p.getL1BatchNumber = .ok cb)
    (evs : List FinalizedEvent) (st1 : StaticData)
    (h : pollBlockFinalized p net st = (.ok evs, st1)) :
    (∀ e ∈ evs, cb - 10 < e.batchNumber ∧ e.batchNumber ≤ cb) ∧
      st1.lastFinalizedBatch = some cb := by
  simp only [pollBlockFinalized, hcb, h7, orElse0_none] at h
  split at h
  · simp at h
  · rename_i evs2 st2 hs
    injection h with h1' h2'
    injection h1' with h3'
    subst h3'
    refine ⟨?_, by rw [← h2']⟩
    intro e he
    obtain ⟨n, hn, he2⟩ := scanFinalized_numbers p net hwb _ _ _ _ hs e he
    obtain ⟨ha, hb⟩ := intRange_mem _ _ n hn
    omega

theorem constProvider_wbBlocks (t b : Int) : wbBlocks (constProvider t b) := by
  intro n blk h
  simp [constProvider] at h

theorem constProvider_wbBlocksTx (t b : Int) : wbBlocksTx (constProvider t b) := by
  intro n blk h
  simp [constProvider] at h

theorem constProvider_wbDetails (t b : Int) : wbDetails (constProvider t b) := by
  intro n d h
  injection h with h2
  rw [← h2]

theorem constProvider_wbLogs (t b : Int) : wbLogs (constProvider t b) := by
  intro f logs h log hlog
  injection h with h2
  subst h2
  simp at hlog

/-! ## Claim C8: first-poll seeding -/

/-- C8: on the first poll invocation (no cursor stored), every
block/batch-watermark trigger kind seeds its watermark at the current tip
minus one, so it emits events only for the current tip (never for the
backlog below it) and stores the tip as the new watermark; the one
exception is blockFinalized, which seeds ten batches back and scans the
bounded backlog `(tip - 10, tip]`. -/
theorem C8_first_poll (p : Provider) (net : String) (isAddr : String → Bool)
    (ifaceOf : String → Except Unit InterfaceModel)
    (st : StaticData) (c cb : Int)
    (hwbB : wbBlocks p) (hwbBT : wbBlocksTx p) (hwbD : wbDetails p) (hwbL : wbLogs p)
    (h1 : st.lastBlock = none) (h2 : st.lastL1Batch = none)
    (h3 : st.lastCheckedBlock = none) (h4 : st.lastTokenBlock = none)
    (h5 : st.lastNftBlock = none) (h6 : st.lastEventBlock = none)
    (h7 : st.lastFinalizedBatch = none)
    (hc : p.getBlockNumber = .ok c) (hcb : p.getL1BatchNumber = .ok cb) :
    (∀ evs st1, pollNewBlock p net st = (.ok evs, st1) →
      (∀ e ∈ evs, e.blockNumber = c) ∧ st1.lastBlock = some c) ∧
    (∀ evs st1, pollNewL1Batch p net st = (.ok evs, st1) →
      (∀ e ∈ evs, e.batchNumber = cb) ∧ st1.lastL1Batch = some cb) ∧
    (∀ dir a evs st1, isAddr a = true →
      pollEthTransfer p net isAddr dir a st = (.ok evs, st1) →
      (∀ e ∈ evs, e.blockNumber = c) ∧ st1.lastCheckedBlock = some c) ∧
    (∀ ca fa evs st1, pollTokenTransfer p net ca fa st = (.ok evs, st1) →
      (∀ e ∈ evs, e.blockNumber = c) ∧ st1.lastTokenBlock = some c) ∧
    (∀ ca fa evs st1, pollNftTransfer p net ca fa st = (.ok evs, st1) →
      (∀ e ∈ evs, e.blockNumber = c) ∧ st1.lastNftBlock = some c) ∧
    (∀ ca abi evs st1, pollContractEvent p net ifaceOf ca abi st = (.ok evs, st1) →
      (∀ e ∈ evs, e.blockNumber = c) ∧ st1.lastEventBlock = some c) ∧
    (∀ evs st1, pollBlockFinalized p net st = (.ok evs, st1) →
      (∀ e ∈ evs, cb - 10 < e.batchNumber ∧ e.batchNumber ≤ cb) ∧
        st1.lastFinalizedBatch = some cb) :=
  ⟨fun evs st1 h => pollNewBlock_first p net st c hwbB h1 hc evs st1 h,
   fun evs st1 h => pollNewL1Batch_first p net st cb hwbD h2 hcb evs st1 h,
   fun dir a evs st1 hv h =>
     pollEthTransfer_first p net isAddr dir a st c hwbBT h3 hv hc evs st1 h,
   fun ca fa evs st1 h => pollTokenTransfer_first p net ca fa st c hwbL h4 hc evs st1 h,
   fun ca fa evs st1 h => pollNftTransfer_first p net ca fa st c hwbL h5 hc evs st1 h,
   fun ca abi evs st1 h =>
     pollContractEvent_first p net ifaceOf ca abi st c hwbL h6 hc evs st1 h,
   fun evs st1 h => pollBlockFinalized_first p net st cb hwbD h7 hcb evs st1 h⟩

/-- C8 witness: the theorem applied to a concrete provider at tip 7 with
an empty cursor. -/
theorem C8_first_poll_witness :
    (∀ e ∈ ([] : List NewBlockEvent), e.blockNumber = (7 : Int)) ∧
    ({ emptyStatic with lastBlock := some (7 : Int) } : StaticData).lastBlock =
      some (7 : Int) :=
  (C8_first_poll (constProvider 7 0) "net" (fun _ => true)
      (fun _ => .error ()) emptyStatic 7 7
      (constProvider_wbBlocks 7 0) (constProvider_wbBlocksTx 7 0)
      (constProvider_wbDetails 7 0) (constProvider_wbLogs 7 0)
      rfl rfl rfl rfl rfl rfl rfl rfl rfl).1 []
    { emptyStatic with lastBlock := some (7 : Int) } rfl

/-! ## Failure leaves the cursor untouched (all kinds except blockFinalized) -/

theorem pollNewBlock_error_state (p : Provider) (net : String) (st : StaticData)
    (e : Unit) (st1 : StaticData) (h : pollNewBlock p net st = (.error e, st1)) :
    st1 = st := by
  simp only [pollNewBlock] at h
  repeat' split at h
  all_goals
    first
      | (injection h with h1 h2; exact h2.symm)
      | simp at h

theorem pollNewL1Batch_error_state (p : Provider) (net : String) (st : StaticData)
    (e : Unit) (st1 : StaticData) (h : pollNewL1Batch p net st = (.error e, st1)) :
    st1 = st := by
  simp only [pollNewL1Batch] at h
  repeat' split at h
  all_goals
    first
      | (injection h with h1 h2; exact h2.symm)
      | simp at h

theorem pollEthTransfer_error_state (p : Provider) (net : String)
    (isAddr : String → Bool) (dir : EthDirection) (a : String) (st : StaticData)
    (e : Unit) (st1 : StaticData)
    (h : pollEthTransfer p net isAddr dir a st = (.error e, st1)) :
    st1 = st := by
  simp only [pollEthTransfer] at h
  repeat' split at h
  all_goals
    first
      | (injection h with h1 h2; exact h2.symm)
      | simp at h

theorem pollTokenTransfer_error_state (p : Provider) (net : String) (ca fa : String)
    (st : StaticData) (e : Unit) (st1 : StaticData)
    (h : pollTokenTransfer p net ca fa st = (.error e, st1)) :
    st1 = st := by
  simp only [pollTokenTransfer] at h
  repeat' split at h
  all_goals
    first
      | (injection h with h1 h2; exact h2.symm)
      | simp at h

theorem pollNftTransfer_error_state (p : Provider) (net : String) (ca fa : String)
    (st : StaticData) (e : Unit) (st1 : StaticData)
    (h : pollNftTransfer p net ca fa st = (.error e, st1)) :
    st1 = st := by
  simp only [pollNftTransfer] at h
  repeat' split at h
  all_goals
    first
      | (injection h with h1 h2; exact h2.symm)
      | simp at h

theorem pollContractEvent_error_state (p : Provider) (net : String)
    (ifaceOf : String → Except Unit InterfaceModel) (ca abi : String)
    (st : StaticData) (e : Unit) (st1 : StaticData)
    (h : pollContractEvent p net ifaceOf ca abi st = (.error e, st1)) :
    st1 = st := by
  simp only [pollContractEvent] at h
  repeat' split at h
  all_goals
    first
      | (injection h with h1 h2; exact h2.symm)
      | simp at h

theorem pollTransactionConfirmed_error_state (p : Provider) (net : String)
    (txHash : String) (rc : Int) (st : StaticData) (e : Unit) (st1 : StaticData)
    (h : pollTransactionConfirmed p net txHash rc st = (.error e, st1)) :
    st1 = st := by
  simp only [pollTransactionConfirmed] at h
  repeat' split at h
  all_goals
    first
      | (injection h with h1 h2; exact h2.symm)
      | simp at h

theorem pollBalanceChange_error_state (p : Provider) (net : String)
    (isAddr : String → Bool) (a : String) (st : StaticData) (e : Unit)
    (st1 : StaticData) (h : pollBalanceChange p net isAddr a st = (.error e, st1)) :
    st1 = st := by
  simp only [pollBalanceChange] at h
  repeat' split at h
  all_goals
    first
      | (injection h with h1 h2; exact h2.symm)
      | simp at h

/-- Completeness of the newBlock scan: a successful scan emits an event
for every block present in the scanned list. -/
theorem scanNewBlock_complete (p : Provider) (net : String) :
    ∀ l evs, scanNewBlock p net l = .ok evs →
      ∀ n b, n ∈ l → p.getBlock n = .ok (some b) →
        mkNewBlockEvent net b ∈ evs := by
  intro l
  induction l with
  | nil =>
    intro evs hs n b hn hb
    simp at hn
  | cons m ms ih =>
    intro evs hs n b hn hb
    simp only [scanNewBlock] at hs
    rcases List.mem_cons.mp hn with rfl | hn2
    · rw [hb] at hs
      have hs2 : (match scanNewBlock p net ms with
          | Except.error e => Except.error e
          | Except.ok rest => Except.ok (mkNewBlockEvent net b :: rest)) =
          Except.ok evs := hs
      split at hs2
      · simp at hs2
      · rename_i rest hrec
        injection hs2 with h1
        subst h1
        exact List.mem_cons_self _ _
    · cases hgb : p.getBlock m with
      | error e2 =>
        rw [hgb] at hs
        simp at hs
      | ok ob =>
        rw [hgb] at hs
        cases ob with
        | none => exact ih evs hs n b hn2 hb
        | some blk =>
          have hs2 : (match scanNewBlock p net ms with
              | Except.error e => Except.error e
              | Except.ok rest => Except.ok (mkNewBlockEvent net blk :: rest)) =
              Except.ok evs := hs
          split at hs2
          · simp at hs2
          · rename_i rest hrec
            injection hs2 with h1
            subst h1
            exact List.mem_cons_of_mem _ (ih rest hrec n b hn2 hb)


/-- Completeness of the newL1Batch scan: a successful scan emits an event
for every batch present in the scanned list. -/
theorem scanNewL1Batch_complete (p : Provider) (net : String) :
    ∀ l evs, scanNewL1Batch p net l = .ok evs →
      ∀ n d, n ∈ l → p.getL1BatchDetails n = .ok d →
        mkNewL1BatchEvent net d ∈ evs := by
  intro l
  induction l with
  | nil =>
    intro evs hs n d hn hd
    simp at hn
  | cons m ms ih =>
    intro evs hs n d hn hd
    simp only [scanNewL1Batch] at hs
    rcases List.mem_cons.mp hn with rfl | hn2
    · rw [hd] at hs
      have hs2 : (match scanNewL1Batch p net ms with
          | Except.error e => Except.error e
          | Except.ok rest => Except.ok (mkNewL1BatchEvent net d :: rest)) =
          Except.ok evs := hs
      split at hs2
      · simp at hs2
      · rename_i rest hrec
        injection hs2 with h1
        subst h1
        exact List.mem_cons_self _ _
    · cases hgd : p.getL1BatchDetails m with
      | error e2 =>
        rw [hgd] at hs
        simp at hs
      | ok dm =>
        rw [hgd] at hs
        have hs2 : (match scanNewL1Batch p net ms with
            | Except.error e => Except.error e
            | Except.ok rest => Except.ok (mkNewL1BatchEvent net dm :: rest)) =
            Except.ok evs := hs
        split at hs2
        · simp at hs2
        · rename_i rest hrec
          injection hs2 with h1
          subst h1
          exact List.mem_cons_of_mem _ (ih rest hrec n d hn2 hd)

/-- Completeness of the ethReceived / ethSent scan: a successful scan
emits an event for every matching transaction of every fetched block in
the scanned list. -/
theorem scanEth_complete (p : Provider) (net : String) (dir : EthDirection)
    (watch : String) :
    ∀ l evs, scanEth p net dir watch l = .ok evs →
      ∀ n b txs tx, n ∈ l → p.getBlockWithTx n = .ok (some b) →
        b.prefetchedTransactions = some txs → tx ∈ txs →
        matchesWatch dir watch tx = true →
        mkEthEvent net dir b.number tx ∈ evs := by
  intro l
  induction l with
  | nil =>
    intro evs hs n b txs tx hn
    simp at hn
  | cons m ms ih =>
    intro evs hs n b txs tx hn hb hpf htx hm
    simp only [scanEth] at hs
    rcases List.mem_cons.mp hn with rfl | hn2
    · rw [hb] at hs
      have hs2 : (match scanEth p net dir watch ms with
          | Except.error e => Except.error e
          | Except.ok rest =>
            match b.prefetchedTransactions with
            | some txs2 =>
              Except.ok ((txs2.filter (matchesWatch dir watch)).map
                (mkEthEvent net dir b.number) ++ rest)
            | none => Except.ok rest) = Except.ok evs := hs
      split at hs2
      · simp at hs2
      · rename_i rest hrec
        rw [hpf] at hs2
        have hs3 : (Except.ok ((txs.filter (matchesWatch dir watch)).map
            (mkEthEvent net dir b.number) ++ rest) :
              Except Unit (List EthTransferEvent)) = Except.ok evs := hs2
        injection hs3 with h1
        subst h1
        exact List.mem_append.mpr (Or.inl
          (List.mem_map_of_mem _ (List.mem_filter.mpr ⟨htx, hm⟩)))
    · cases hgb : p.getBlockWithTx m with
      | error e2 =>
        rw [hgb] at hs
        simp at hs
      | ok ob =>
        rw [hgb] at hs
        cases ob with
        | none =>
          have hs2 : (match scanEth p net dir watch ms with
              | Except.error e => Except.error e
              | Except.ok rest => Except.ok rest) = Except.ok evs := hs
          split at hs2
          · simp at hs2
          · rename_i rest hrec
            injection hs2 with h1
            subst h1
            exact ih rest hrec n b txs tx hn2 hb hpf htx hm
        | some b2 =>
          have hs2 : (match scanEth p net dir watch ms with
              | Except.error e => Except.error e
              | Except.ok rest =>
                match b2.prefetchedTransactions with
                | some txs2 =>
                  Except.ok ((txs2.filter (matchesWatch dir watch)).map
                    (mkEthEvent net dir b2.number) ++ rest)
                | none => Except.ok rest) = Except.ok evs := hs
          split at hs2
          · simp at hs2
          · rename_i rest hrec
            cases hp2 : b2.prefetchedTransactions with
            | none =>
              rw [hp2] at hs2
              have hs3 : (Except.ok rest : Except Unit (List EthTransferEvent)) =
                  Except.ok evs := hs2
              injection hs3 with h1
              subst h1
              exact ih rest hrec n b txs tx hn2 hb hpf htx hm
            | some txs2 =>
              rw [hp2] at hs2
              have hs3 : (Except.ok ((txs2.filter (matchesWatch dir watch)).map
                  (mkEthEvent net dir b2.number) ++ rest) :
                    Except Unit (List EthTransferEvent)) = Except.ok evs := hs2
              injection hs3 with h1
              subst h1
              exact List.mem_append.mpr
                (Or.inr (ih rest hrec n b txs tx hn2 hb hpf htx hm))

/-- Completeness of the tokenTransfer per-log loop: a successful loop
emits the decoded event of every log that decodes to one. -/
theorem scanTokenLogs_complete (net ca fa : String) :
    ∀ logs evs, scanTokenLogs net ca fa logs = .ok evs →
      ∀ log ∈ logs, ∀ ev, processTokenLog net ca fa log = .ok (some ev) →
        ev ∈ evs := by
  intro logs
  induction logs with
  | nil =>
    intro evs hs log hlog
    simp at hlog
  | cons lg rest ih =>
    intro evs hs log hlog ev hproc
    simp only [scanTokenLogs] at hs
    rcases List.mem_cons.mp hlog with rfl | hl2
    · rw [hproc] at hs
      have hs2 : (match scanTokenLogs net ca fa rest with
          | Except.error e => Except.error e
          | Except.ok evs2 => Except.ok (ev :: evs2)) = Except.ok evs := hs
      split at hs2
      · simp at hs2
      · rename_i evs2 hrec
        injection hs2 with h1
        subst h1
        exact List.mem_cons_self _ _
    · cases hpl : processTokenLog net ca fa lg with
      | error e2 =>
        rw [hpl] at hs
        simp at hs
      | ok oev =>
        rw [hpl] at hs
        cases oev with
        | none =>
          have hs2 : (match scanTokenLogs net ca fa rest with
              | Except.error e => Except.error e
              | Except.ok evs2 => Except.ok evs2) = Except.ok evs := hs
          split at hs2
          · simp at hs2
          · rename_i evs2 hrec
            injection hs2 with h1
            subst h1
            exact ih evs2 hrec log hl2 ev hproc
        | some e3 =>
          have hs2 : (match scanTokenLogs net ca fa rest with
              | Except.error e => Except.error e
              | Except.ok evs2 => Except.ok (e3 :: evs2)) = Except.ok evs := hs
          split at hs2
          · simp at hs2
          · rename_i evs2 hrec
            injection hs2 with h1
            subst h1
            exact List.mem_cons_of_mem _ (ih evs2 hrec log hl2 ev hproc)

/-- Completeness of the nftTransfer per-log loop: a successful loop emits
an event for every log with four topics, a decodable token id and a
passing address filter. -/
theorem scanNftLogs_complete (net ca fa : String) :
    ∀ logs evs, scanNftLogs net ca fa logs = .ok evs →
      ∀ log ∈ logs, ∀ t0 t1 t2 t3 ts v,
        log.topics = t0 :: t1 :: t2 :: t3 :: ts → jsBigInt t3 = some v →
        (fa != "" && !(lowerStr ("0x" ++ sliceFrom t1 26) == lowerStr fa) &&
          !(lowerStr ("0x" ++ sliceFrom t2 26) == lowerStr fa)) = false →
        ({ type := "nftTransfer", contractAddress := ca
           fromAddr := "0x" ++ sliceFrom t1 26
           toAddr := "0x" ++ sliceFrom t2 26
           tokenId := bigIntToString v
           blockNumber := log.blockNumber
           transactionHash := log.transactionHash
           logIndex := log.index, network := net } : NftTransferEvent) ∈ evs := by
  intro logs
  induction logs with
  | nil =>
    intro evs hs log hlog
    simp at hlog
  | cons lg rest ih =>
    intro evs hs log hlog t0 t1 t2 t3 ts v htop hjs hguard
    simp only [scanNftLogs] at hs
    rcases List.mem_cons.mp hlog with rfl | hl2
    · rw [htop] at hs
      have hs2 : (match jsBigInt t3 with
          | none => Except.error ()
          | some tokenId =>
            match scanNftLogs net ca fa rest with
            | Except.error e => Except.error e
            | Except.ok evs2 =>
              if fa != "" && !(lowerStr ("0x" ++ sliceFrom t1 26) == lowerStr fa) &&
                  !(lowerStr ("0x" ++ sliceFrom t2 26) == lowerStr fa) then
                Except.ok evs2
              else
                Except.ok ({ type := "nftTransfer", contractAddress := ca
                             fromAddr := "0x" ++ sliceFrom t1 26
                             toAddr := "0x" ++ sliceFrom t2 26
                             tokenId := bigIntToString tokenId
                             blockNumber := log.blockNumber
                             transactionHash := log.transactionHash
                             logIndex := log.index, network := net } :: evs2)) =
          Except.ok evs := hs
      rw [hjs] at hs2
      have hs3 : (match scanNftLogs net ca fa rest with
          | Except.error e => Except.error e
          | Except.ok evs2 =>
            if fa != "" && !(lowerStr ("0x" ++ sliceFrom t1 26) == lowerStr fa) &&
                !(lowerStr ("0x" ++ sliceFrom t2 26) == lowerStr fa) then
              Except.ok evs2
            else
              Except.ok ({ type := "nftTransfer", contractAddress := ca
                           fromAddr := "0x" ++ sliceFrom t1 26
                           toAddr := "0x" ++ sliceFrom t2 26
                           tokenId := bigIntToString v
                           blockNumber := log.blockNumber
                           transactionHash := log.transactionHash
                           logIndex := log.index, network := net } :: evs2)) =
          Except.ok evs := hs2
      split at hs3
      · simp at hs3
      · rename_i evs2 hrec
        split at hs3
        · rename_i hcond
          rw [hguard] at hcond
          simp at hcond
        · injection hs3 with h1
          subst h1
          exact List.mem_cons_self _ _
    · cases htd : lg.topics with
      | nil =>
        rw [htd] at hs
        have hs2 : scanNftLogs net ca fa rest = Except.ok evs := hs
        exact ih evs hs2 log hl2 t0 t1 t2 t3 ts v htop hjs hguard
      | cons a0 r0 =>
        cases r0 with
        | nil =>
          rw [htd] at hs
          have hs2 : scanNftLogs net ca fa rest = Except.ok evs := hs
          exact ih evs hs2 log hl2 t0 t1 t2 t3 ts v htop hjs hguard
        | cons a1 r1 =>
          cases r1 with
          | nil =>
            rw [htd] at hs
            have hs2 : scanNftLogs net ca fa rest = Except.ok evs := hs
            exact ih evs hs2 log hl2 t0 t1 t2 t3 ts v htop hjs hguard
          | cons a2 r2 =>
            cases r2 with
            | nil =>
              rw [htd] at hs
              have hs2 : scanNftLogs net ca fa rest = Except.ok evs := hs
              exact ih evs hs2 log hl2 t0 t1 t2 t3 ts v htop hjs hguard
            | cons a3 r3 =>
              rw [htd] at hs
              have hs2 : (match jsBigInt a3 with
                  | none => Except.error ()
                  | some tokenId =>
                    match scanNftLogs net ca fa rest with
                    | Except.error e => Except.error e
                    | Except.ok evs2 =>
                      if fa != "" &&
                          !(lowerStr ("0x" ++ sliceFrom a1 26) == lowerStr fa) &&
                          !(lowerStr ("0x" ++ sliceFrom a2 26) == lowerStr fa) then
                        Except.ok evs2
                      else
                        Except.ok ({ type := "nftTransfer", contractAddress := ca
                                     fromAddr := "0x" ++ sliceFrom a1 26
                                     toAddr := "0x" ++ sliceFrom a2 26
                                     tokenId := bigIntToString tokenId
                                     blockNumber := lg.blockNumber
                                     transactionHash := lg.transactionHash
                                     logIndex := lg.index, network := net } :: evs2)) =
                  Except.ok evs := hs
              cases hjb : jsBigInt a3 with
              | none =>
                rw [hjb] at hs2
                simp at hs2
              | some v2 =>
                rw [hjb] at hs2
                have hs3 : (match scanNftLogs net ca fa rest with
                    | Except.error e => Except.error e
                    | Except.ok evs2 =>
                      if fa != "" &&
                          !(lowerStr ("0x" ++ sliceFrom a1 26) == lowerStr fa) &&
                          !(lowerStr ("0x" ++ sliceFrom a2 26) == lowerStr fa) then
                        Except.ok evs2
                      else
                        Except.ok ({ type := "nftTransfer", contractAddress := ca
                                     fromAddr := "0x" ++ sliceFrom a1 26
                                     toAddr := "0x" ++ sliceFrom a2 26
                                     tokenId := bigIntToString v2
                                     blockNumber := lg.blockNumber
                                     transactionHash := lg.transactionHash
                                     logIndex := lg.index, network := net } :: evs2)) =
                    Except.ok evs := hs2
                split at hs3
                · simp at hs3
                · rename_i evs2 hrec
                  split at hs3
                  · injection hs3 with h1
                    subst h1
                    exact ih evs2 hrec log hl2 t0 t1 t2 t3 ts v htop hjs hguard
                  · injection hs3 with h1
                    subst h1
                    exact List.mem_cons_of_mem _
                      (ih evs2 hrec log hl2 t0 t1 t2 t3 ts v htop hjs hguard)

/-- Completeness of the contractEvent per-log loop: every log the
interface decodes contributes its event. -/
theorem scanContractLogs_complete (net ca : String) (iface : InterfaceModel) :
    ∀ logs, ∀ log ∈ logs, ∀ decoded, iface.parseLog log = some decoded →
      ({ type := "contractEvent", eventName := decoded.name, contractAddress := ca
         args := decoded.args, blockNumber := log.blockNumber
         transactionHash := log.transactionHash, logIndex := log.index
         network := net } : ContractEventItem) ∈ scanContractLogs net ca iface logs := by
  intro logs
  induction logs with
  | nil =>
    intro log hlog
    simp at hlog
  | cons lg rest ih =>
    intro log hlog decoded hdec
    simp only [scanContractLogs]
    rcases List.mem_cons.mp hlog with rfl | hl2
    · rw [hdec]
      exact List.mem_cons_self _ _
    · cases hdl : iface.parseLog lg with
      | none =>
        exact ih log hl2 decoded hdec
      | some d2 =>
        exact List.mem_cons_of_mem _ (ih log hl2 decoded hdec)

/-! ## Claim C2: failure and retry -/

/-- C2 counterexample: the `blockFinalized` per-batch latch is persisted
cursor state advanced *before* delivery.  From watermark 100 with tip 102
and batch 101 finalized, a scan that throws at batch 102 delivers nothing
yet latches `batch_executed_101`; the retrying invocation (same tip, all
queries succeeding, batch 101 still verified) then delivers nothing
either — the event for qualifying batch 101 is permanently lost. -/
theorem C2_counterexample :
    finState0.batchExecuted 101 = false ∧
    (pollBlockFinalized failAt102Provider "net" finState0).1 = .error () ∧
    (pollBlockFinalized failAt102Provider "net" finState0).2.batchExecuted 101 = true ∧
    (pollBlockFinalized failAt102Provider "net" finState0).2.lastFinalizedBatch =
      some 100 ∧
    (verifiedBatch 101).status = "verified" ∧
    truthyS (verifiedBatch 101).executeTxHash = true ∧
    (pollBlockFinalized retryProvider "net"
        (pollBlockFinalized failAt102Provider "net" finState0).2).1 = .ok [] := by
  refine ⟨rfl, rfl, rfl, rfl, rfl, rfl, rfl⟩

/-- C2 (amended): for every trigger kind except blockFinalized, an
invocation that throws leaves the persisted cursor state exactly as it
was, so the next invocation re-scans a superset of the failed range; and
a successful invocation from watermark W at tip C delivers every
qualifying item of the scanned range (W, C] — every block (newBlock),
every batch (newL1Batch), every matching transaction of every fetched
block (ethReceived / ethSent), every Transfer log that decodes to a token
or NFT event (tokenTransfer / nftTransfer), and every decodable log
(contractEvent) — so no event of the range is permanently lost.  For
blockFinalized the per-batch latch is set during the scan, before
delivery, so a partial failure can permanently lose a batch's event (see
the counterexample). -/
theorem C2_failure_retry (p : Provider) (net : String) (isAddr : String → Bool)
    (ifaceOf : String → Except Unit InterfaceModel) (st : StaticData) :
    (∀ e st1, pollNewBlock p net st = (.error e, st1) → st1 = st) ∧
    (∀ e st1, pollNewL1Batch p net st = (.error e, st1) → st1 = st) ∧
    (∀ dir a e st1, pollEthTransfer p net isAddr dir a st = (.error e, st1) → st1 = st) ∧
    (∀ ca fa e st1, pollTokenTransfer p net ca fa st = (.error e, st1) → st1 = st) ∧
    (∀ ca fa e st1, pollNftTransfer p net ca fa st = (.error e, st1) → st1 = st) ∧
    (∀ ca abi e st1, pollContractEvent p net ifaceOf ca abi st = (.error e, st1) →
      st1 = st) ∧
    (∀ hx rc e st1, pollTransactionConfirmed p net hx rc st = (.error e, st1) →
      st1 = st) ∧
    (∀ a e st1, pollBalanceChange p net isAddr a st = (.error e, st1) → st1 = st) ∧
    (∀ w c evs st1, st.lastBlock = some w → w ≠ 0 → p.getBlockNumber = .ok c →
      pollNewBlock p net st = (.ok evs, st1) →
      ∀ n b, w < n → n ≤ c → p.getBlock n = .ok (some b) →
        mkNewBlockEvent net b ∈ evs) ∧
    (∀ w c evs st1, st.lastL1Batch = some w → w ≠ 0 → p.getL1BatchNumber = .ok c →
      pollNewL1Batch p net st = (.ok evs, st1) →
      ∀ n d, w < n → n ≤ c → p.getL1BatchDetails n = .ok d →
        mkNewL1BatchEvent net d ∈ evs) ∧
    (∀ w c dir a evs st1, isAddr a = true → st.lastCheckedBlock = some w → w ≠ 0 →
      p.getBlockNumber = .ok c →
      pollEthTransfer p net isAddr dir a st = (.ok evs, st1) →
      ∀ n b txs tx, w < n → n ≤ c → p.getBlockWithTx n = .ok (some b) →
        b.prefetchedTransactions = some txs → tx ∈ txs →
        matchesWatch dir a tx = true → mkEthEvent net dir b.number tx ∈ evs) ∧
    (∀ w c ca fa logs evs st1, st.lastTokenBlock = some w → w ≠ 0 → w < c →
      p.getBlockNumber = .ok c →
      p.getLogs { address := ca, topics := [transferTopic],
                  fromBlock := w + 1, toBlock := c } = .ok logs →
      pollTokenTransfer p net ca fa st = (.ok evs, st1) →
      ∀ log ∈ logs, ∀ ev, processTokenLog net ca fa log = .ok (some ev) →
        ev ∈ evs) ∧
    (∀ w c ca fa logs evs st1, st.lastNftBlock = some w → w ≠ 0 → w < c →
      p.getBlockNumber = .ok c →
      p.getLogs { address := ca, topics := [transferTopic],
                  fromBlock := w + 1, toBlock := c } = .ok logs →
      pollNftTransfer p net ca fa st = (.ok evs, st1) →
      ∀ log ∈ logs, ∀ t0 t1 t2 t3 ts v,
        log.topics = t0 :: t1 :: t2 :: t3 :: ts → jsBigInt t3 = some v →
        (fa != "" && !(lowerStr ("0x" ++ sliceFrom t1 26) == lowerStr fa) &&
          !(lowerStr ("0x" ++ sliceFrom t2 26) == lowerStr fa)) = false →
        ({ type := "nftTransfer", contractAddress := ca
           fromAddr := "0x" ++ sliceFrom t1 26
           toAddr := "0x" ++ sliceFrom t2 26
           tokenId := bigIntToString v
           blockNumber := log.blockNumber
           transactionHash := log.transactionHash
           logIndex := log.index, network := net } : NftTransferEvent) ∈ evs) ∧
    (∀ w c ca abi iface frag fr logs evs st1, st.lastEventBlock = some w → w ≠ 0 →
      w < c → p.getBlockNumber = .ok c → ifaceOf abi = .ok iface →
      iface.fragments.filter (fun f => f.isEvent) = frag :: fr →
      (frag.topicHash != "") = true →
      p.getLogs { address := ca, topics := [frag.topicHash],
                  fromBlock := w + 1, toBlock := c } = .ok logs →
      pollContractEvent p net ifaceOf ca abi st = (.ok evs, st1) →
      ∀ log ∈ logs, ∀ decoded, iface.parseLog log = some decoded →
        ({ type := "contractEvent", eventName := decoded.name, contractAddress := ca
           args := decoded.args, blockNumber := log.blockNumber
           transactionHash := log.transactionHash, logIndex := log.index
           network := net } : ContractEventItem) ∈ evs) := by
  refine ⟨fun e st1 h => pollNewBlock_error_state p net st e st1 h,
    fun e st1 h => pollNewL1Batch_error_state p net st e st1 h,
    fun dir a e st1 h => pollEthTransfer_error_state p net isAddr dir a st e st1 h,
    fun ca fa e st1 h => pollTokenTransfer_error_state p net ca fa st e st1 h,
    fun ca fa e st1 h => pollNftTransfer_error_state p net ca fa st e st1 h,
    fun ca abi e st1 h => pollContractEvent_error_state p net ifaceOf ca abi st e st1 h,
    fun hx rc e st1 h => pollTransactionConfirmed_error_state p net hx rc st e st1 h,
    fun a e st1 h => pollBalanceChange_error_state p net isAddr a st e st1 h,
    ?_, ?_, ?_, ?_, ?_, ?_⟩
  · intro w c evs st1 hw0 hw hc h n b hn1 hn2 hb
    have h0 : orElse0 (some w) (c - 1) = w := by simp [orElse0, hw]
    simp only [pollNewBlock, hc, hw0, h0] at h
    split at h
    · split at h
      · simp at h
      · rename_i evs2 hs
        injection h with h1' h2'
        injection h1' with h3'
        subst h3'
        exact scanNewBlock_complete p net _ _ hs n b
          (intRange_mem_of _ _ n (by omega) hn2) hb
    · exfalso
      omega
  · intro w c evs st1 hw0 hw hc h n d hn1 hn2 hd
    have h0 : orElse0 (some w) (c - 1) = w := by simp [orElse0, hw]
    simp only [pollNewL1Batch, hc, hw0, h0] at h
    split at h
    · split at h
      · simp at h
      · rename_i evs2 hs
        injection h with h1' h2'
        injection h1' with h3'
        subst h3'
        exact scanNewL1Batch_complete p net _ _ hs n d
          (intRange_mem_of _ _ n (by omega) hn2) hd
    · exfalso
      omega
  · intro w c dir a evs st1 hv hw0 hw hc h n b txs tx hn1 hn2 hb hpf htx hm
    have h0 : orElse0 (some w) (c - 1) = w := by simp [orElse0, hw]
    simp only [pollEthTransfer, hv, Bool.not_true, Bool.false_eq_true, if_false,
      hc, hw0, h0] at h
    split at h
    · split at h
      · simp at h
      · rename_i evs2 hs
        injection h with h1' h2'
        injection h1' with h3'
        subst h3'
        exact scanEth_complete p net dir a _ _ hs n b txs tx
          (intRange_mem_of _ _ n (by omega) hn2) hb hpf htx hm
    · exfalso
      omega
  · intro w c ca fa logs evs st1 hw0 hw hwc hc hlogs h log hlog ev hproc
    have h0 : orElse0 (some w) (c - 1) = w := by simp [orElse0, hw]
    simp only [pollTokenTransfer, hc, hw0, h0, hlogs] at h
    split at h
    · split at h
      · simp at h
      · rename_i evs2 hs
        injection h with h1' h2'
        injection h1' with h3'
        subst h3'
        exact scanTokenLogs_complete net ca fa _ _ hs log hlog ev hproc
    · exfalso
      omega
  · intro w c ca fa logs evs st1 hw0 hw hwc hc hlogs h log hlog t0 t1 t2 t3 ts v
      htop hjs hguard
    have h0 : orElse0 (some w) (c - 1) = w := by simp [orElse0, hw]
    simp only [pollNftTransfer, hc, hw0, h0, hlogs] at h
    split at h
    · split at h
      · simp at h
      · rename_i evs2 hs
        injection h with h1' h2'
        injection h1' with h3'
        subst h3'
        exact scanNftLogs_complete net ca fa _ _ hs log hlog t0 t1 t2 t3 ts v
          htop hjs hguard
    · exfalso
      omega
  · intro w c ca abi iface frag fr logs evs st1 hw0 hw hwc hc hif hfr hth hlogs h
      log hlog decoded hdec
    have h0 : orElse0 (some w) (c - 1) = w := by simp [orElse0, hw]
    simp only [pollContractEvent, hc, hw0, h0, hif, hfr, hth, hlogs] at h
    split at h
    · injection h with h1' h2'
      injection h1' with h3'
      subst h3'
      exact scanContractLogs_complete net ca iface logs log hlog decoded hdec
    · exfalso
      omega

/-- C2 witness: a failing invocation (newBlock, `getBlock` throws) leaves
the cursor untouched, and a successful re-scan from the same watermark
emits the block found in the range. -/
theorem C2_failure_retry_witness :
    ∀ st1, pollNewBlock
        { constProvider 6 0 with getBlock := fun _ => .error () } "net"
        { emptyStatic with lastBlock := some 5 } = (.error (), st1) →
      st1 = { emptyStatic with lastBlock := some 5 } :=
  fun st1 h =>
    (C2_failure_retry { constProvider 6 0 with getBlock := fun _ => .error () }
      "net" (fun _ => true) (fun _ => .error ())
      { emptyStatic with lastBlock := some 5 }).1 () st1 h

/-! ## Claim C1: stale or equal tip -/

/-- C1 counterexample: for `blockFinalized` a stale tip regresses the
watermark — with stored watermark 100 and current batch tip 95, the poll
emits zero events but overwrites `lastFinalizedBatch` with 95. -/
theorem C1_counterexample :
    (pollBlockFinalized (constProvider 95 0) "net"
        { emptyStatic with lastFinalizedBatch := some 100 }).1 = .ok [] ∧
    (pollBlockFinalized (constProvider 95 0) "net"
        { emptyStatic with lastFinalizedBatch := some 100 }).2.lastFinalizedBatch =
      some 95 ∧
    (95 : Int) < 100 := by
  refine ⟨rfl, rfl, by decide⟩

/-- C1 (amended): whenever a poll invocation observes a chain tip less
than or equal to the stored watermark, the invocation emits zero events;
for newBlock, newL1Batch, ethReceived, ethSent, tokenTransfer,
nftTransfer and contractEvent the stored cursor state is not mutated at
all, but for blockFinalized the watermark is unconditionally overwritten
with the observed tip, so a strictly stale tip regresses it. -/
theorem C1_stale_tip (p : Provider) (net : String) (isAddr : String → Bool)
    (st : StaticData) (c cb : Int) :
    (∀ w, st.lastBlock = some w → w ≠ 0 → p.getBlockNumber = .ok c → c ≤ w →
      pollNewBlock p net st = (.ok [], st)) ∧
    (∀ w, st.lastL1Batch = some w → w ≠ 0 → p.getL1BatchNumber = .ok cb → cb ≤ w →
      pollNewL1Batch p net st = (.ok [], st)) ∧
    (∀ w dir a, st.lastCheckedBlock = some w → w ≠ 0 → isAddr a = true →
      p.getBlockNumber = .ok c → c ≤ w →
      pollEthTransfer p net isAddr dir a st = (.ok [], st)) ∧
    (∀ w ca fa, st.lastTokenBlock = some w → w ≠ 0 → p.getBlockNumber = .ok c → c ≤ w →
      pollTokenTransfer p net ca fa st = (.ok [], st)) ∧
    (∀ w ca fa, st.lastNftBlock = some w → w ≠ 0 → p.getBlockNumber = .ok c → c ≤ w →
      pollNftTransfer p net ca fa st = (.ok [], st)) ∧
    (∀ w ifaceOf ca abi, st.lastEventBlock = some w → w ≠ 0 →
      p.getBlockNumber = .ok c → c ≤ w →
      pollContractEvent p net ifaceOf ca abi st = (.ok [], st)) ∧
    (∀ w, st.lastFinalizedBatch = some w → w ≠ 0 → p.getL1BatchNumber = .ok cb →
      cb ≤ w →
      pollBlockFinalized p net st = (.ok [], { st with lastFinalizedBatch := some cb })) := by
  refine ⟨?_, ?_, ?_, ?_, ?_, ?_, ?_⟩
  · intro w hst hw hbn hle
    have h0 : orElse0 (some w) (c - 1) = w := by simp [orElse0, hw]
    simp only [pollNewBlock, hbn, hst, h0]
    rw [if_neg (by omega : ¬ (c > w))]
  · intro w hst hw hbn hle
    have h0 : orElse0 (some w) (cb - 1) = w := by simp [orElse0, hw]
    simp only [pollNewL1Batch, hbn, hst, h0]
    rw [if_neg (by omega : ¬ (cb > w))]
  · intro w dir a hst hw hv hbn hle
    have h0 : orElse0 (some w) (c - 1) = w := by simp [orElse0, hw]
    simp only [pollEthTransfer, hv, Bool.not_true, Bool.false_eq_true, if_false,
      hbn, hst, h0]
    rw [if_neg (by omega : ¬ (c > w))]
  · intro w ca fa hst hw hbn hle
    have h0 : orElse0 (some w) (c - 1) = w := by simp [orElse0, hw]
    simp only [pollTokenTransfer, hbn, hst, h0]
    rw [if_neg (by omega : ¬ (c > w))]
  · intro w ca fa hst hw hbn hle
    have h0 : orElse0 (some w) (c - 1) = w := by simp [orElse0, hw]
    simp only [pollNftTransfer, hbn, hst, h0]
    rw [if_neg (by omega : ¬ (c > w))]
  · intro w ifaceOf ca abi hst hw hbn hle
    have h0 : orElse0 (some w) (c - 1) = w := by simp [orElse0, hw]
    simp only [pollContractEvent, hbn, hst, h0]
    rw [if_neg (by omega : ¬ (c > w))]
  · intro w hst hw hbn hle
    have h0 : orElse0 (some w) (cb - 10) = w := by simp [orElse0, hw]
    have hnil : intRange (w + 1) cb = [] := intRange_nil _ _ (by omega)
    simp only [pollBlockFinalized, hbn, hst, h0, hnil]
    rfl

/-- C1 witness: concrete stale-tip invocations — `newBlock` is a strict
no-op while `blockFinalized` regresses its watermark from 100 to 95. -/
theorem C1_stale_tip_witness :
    pollNewBlock staleProvider "net" staleState = (.ok [], staleState) ∧
    pollBlockFinalized staleProvider "net" staleState =
      (.ok [], { staleState with lastFinalizedBatch := some (95 : Int) }) :=
  ⟨(C1_stale_tip staleProvider "net" (fun _ => true) staleState 3 95).1 5
      (by rfl) (by decide) (by rfl) (by decide),
   (C1_stale_tip staleProvider "net" (fun _ => true) staleState 3 95).2.2.2.2.2.2 100
      (by rfl) (by decide) (by rfl) (by decide)⟩


/-! ## C5: one-shot latch discipline -/

/-- Shape of one `transactionConfirmed` invocation: either it leaves the
cursor state untouched and delivers nothing, or the latch for the watched
hash was unset, it delivers exactly one event carrying that hash, and the
only state change is setting that latch. -/
theorem pollTxConfirmed_shape (p : Provider) (net txHash : String) (rc : Int)
    (st : StaticData) (hwb : wbReceipts p) :
    ((pollTransactionConfirmed p net txHash rc st).2 = st ∧
      deliveredTx (pollTransactionConfirmed p net txHash rc st).1 = []) ∨
    (st.txLatch txHash = false ∧
      ∃ ev : TxConfirmedEvent, ev.hash = txHash ∧
        pollTransactionConfirmed p net txHash rc st =
          (.ok [ev],
           { st with txLatch := fun h => if h = txHash then true else st.txLatch h })) := by
  by_cases hl : st.txLatch txHash = true
  · exact Or.inl ⟨by simp [pollTransactionConfirmed, hl],
      by simp [pollTransactionConfirmed, hl, deliveredTx]⟩
  · have hlf : st.txLatch txHash = false := by
      cases hb : st.txLatch txHash
      · rfl
      · exact absurd hb hl
    cases hr : p.getTransactionReceipt txHash with
    | error e =>
        exact Or.inl ⟨by simp [pollTransactionConfirmed, hlf, hr],
          by simp [pollTransactionConfirmed, hlf, hr, deliveredTx]⟩
    | ok orec =>
      cases orec with
      | none =>
          exact Or.inl ⟨by simp [pollTransactionConfirmed, hlf, hr],
            by simp [pollTransactionConfirmed, hlf, hr, deliveredTx]⟩
      | some receipt =>
        cases hbn : receipt.blockNumber with
        | none =>
            exact Or.inl ⟨by simp [pollTransactionConfirmed, hlf, hr, hbn],
              by simp [pollTransactionConfirmed, hlf, hr, hbn, deliveredTx]⟩
        | some rbn =>
          by_cases hz : rbn = 0
          · exact Or.inl ⟨by simp [pollTransactionConfirmed, hlf, hr, hbn, hz],
              by simp [pollTransactionConfirmed, hlf, hr, hbn, hz, deliveredTx]⟩
          · cases hcur : p.getBlockNumber with
            | error e =>
                exact Or.inl ⟨by simp [pollTransactionConfirmed, hlf, hr, hbn, hz, hcur],
                  by simp [pollTransactionConfirmed, hlf, hr, hbn, hz, hcur, deliveredTx]⟩
            | ok currentBlock =>
              by_cases hc : currentBlock - rbn + 1 ≥ rc
              · refine Or.inr ⟨hlf,
                  ⟨{ hash := receipt.hash
                     status := if receipt.status = some 1 then "success" else "failed"
                     blockNumber := rbn
                     confirmations := currentBlock - rbn + 1
                     fromAddr := receipt.fromAddr
                     toAddr := receipt.toAddr
                     gasUsed := receipt.gasUsed.map bigIntToString
                     network := net }, hwb txHash receipt hr, ?_⟩⟩
                simp [pollTransactionConfirmed, hlf, hr, hbn, hz, hcur, hc]
              · exact Or.inl ⟨by simp [pollTransactionConfirmed, hlf, hr, hbn, hz, hcur, hc],
                  by simp [pollTransactionConfirmed, hlf, hr, hbn, hz, hcur, hc, deliveredTx]⟩

/-- Counting a singleton delivery. -/
theorem countTxList_singleton (hx : String) (ev : TxConfirmedEvent) :
    countTxList hx [ev] = if ev.hash == hx then 1 else 0 := by
  cases h : ev.hash == hx <;> simp [countTxList, h]

/-- One `transactionConfirmed` invocation, seen through an arbitrary hash
`hx`: a set latch yields zero `hx`-events and survives; at most one
`hx`-event is delivered; delivering one sets the latch for `hx`. -/
theorem pollTxConfirmed_once (p : Provider) (net txHash : String) (rc : Int)
    (st : StaticData) (hwb : wbReceipts p) (hx : String) :
    (st.txLatch hx = true →
      countTxList hx (deliveredTx (pollTransactionConfirmed p net txHash rc st).1) = 0 ∧
      ((pollTransactionConfirmed p net txHash rc st).2).txLatch hx = true) ∧
    countTxList hx (deliveredTx (pollTransactionConfirmed p net txHash rc st).1) ≤ 1 ∧
    (1 ≤ countTxList hx (deliveredTx (pollTransactionConfirmed p net txHash rc st).1) →
      ((pollTransactionConfirmed p net txHash rc st).2).txLatch hx = true) := by
  rcases pollTxConfirmed_shape p net txHash rc st hwb with ⟨h2, hdel⟩ | ⟨hlf, ev, hev, heq⟩
  · rw [hdel, h2]
    refine ⟨fun hl => ⟨by simp [countTxList], hl⟩, by simp [countTxList], fun hcnt => ?_⟩
    simp [countTxList] at hcnt
  · rw [heq]
    by_cases hxh : hx = txHash
    · subst hxh
      refine ⟨fun hl => absurd hl (by simp [hlf]), ?_, fun _ => by simp⟩
      simp only [deliveredTx]
      rw [countTxList_singleton]
      cases ev.hash == hx <;> simp
    · have hbe : (ev.hash == hx) = false := by
        rw [hev]
        exact beq_eq_false_iff_ne.mpr (Ne.symm hxh)
      refine ⟨fun hl => ⟨?_, ?_⟩, ?_, fun hcnt => ?_⟩
      · simp [deliveredTx, countTxList, hbe]
      · simp only [if_neg hxh]
        exact hl
      · simp [deliveredTx, countTxList, hbe]
      · exact absurd hcnt (by simp [deliveredTx, countTxList, hbe])

/-- Per-invocation counting splits off the head delivery. -/
theorem countTxEvents_cons (hx : String) (evs : List TxConfirmedEvent)
    (outs : List (List TxConfirmedEvent)) :
    countTxEvents hx (evs :: outs) = countTxList hx evs + countTxEvents hx outs := by
  simp [countTxEvents, countTxList]

/-- Once the per-hash latch is set, no later `transactionConfirmed`
invocation of the run emits that hash, and the latch survives the run. -/
theorem runTxConfirmed_latched (net hx : String) :
    ∀ (steps : List (Provider × String × Int)) (st : StaticData),
      (∀ s ∈ steps, wbReceipts s.1) → st.txLatch hx = true →
      countTxEvents hx (runTransactionConfirmed net steps st).1 = 0 ∧
      ((runTransactionConfirmed net steps st).2).txLatch hx = true := by
  intro steps
  induction steps with
  | nil => intro st _ hl; exact ⟨rfl, hl⟩
  | cons s rest ih =>
    intro st hwb hl
    obtain ⟨p, h, c⟩ := s
    have hwp : wbReceipts p := hwb (p, h, c) (List.mem_cons_self _ _)
    have hrests : ∀ q ∈ rest, wbReceipts q.1 :=
      fun q hq => hwb q (List.mem_cons_of_mem _ hq)
    obtain ⟨hfirst, hle, hset⟩ := pollTxConfirmed_once p net h c st hwp hx
    obtain ⟨hz0, hlat⟩ := hfirst hl
    have hrest := ih (pollTransactionConfirmed p net h c st).2 hrests hlat
    simp only [runTransactionConfirmed]
    refine ⟨?_, hrest.2⟩
    rw [countTxEvents_cons, hz0, hrest.1]

/-- Across any run of `transactionConfirmed` invocations against receipt-
faithful providers, each hash is emitted at most once. -/
theorem runTxConfirmed_atMostOnce (net hx : String) :
    ∀ (steps : List (Provider × String × Int)) (st : StaticData),
      (∀ s ∈ steps, wbReceipts s.1) →
      countTxEvents hx (runTransactionConfirmed net steps st).1 ≤ 1 := by
  intro steps
  induction steps with
  | nil => intro st _; simp [runTransactionConfirmed, countTxEvents]
  | cons s rest ih =>
    intro st hwb
    obtain ⟨p, h, c⟩ := s
    have hwp : wbReceipts p := hwb (p, h, c) (List.mem_cons_self _ _)
    have hrests : ∀ q ∈ rest, wbReceipts q.1 :=
      fun q hq => hwb q (List.mem_cons_of_mem _ hq)
    obtain ⟨hfirst, hle, hset⟩ := pollTxConfirmed_once p net h c st hwp hx
    simp only [runTransactionConfirmed]
    rw [countTxEvents_cons]
    by_cases hc : 1 ≤ countTxList hx (deliveredTx (pollTransactionConfirmed p net h c st).1)
    · have h0 :=
        (runTxConfirmed_latched net hx rest (pollTransactionConfirmed p net h c st).2
          hrests (hset hc)).1
      omega
    · have := ih (pollTransactionConfirmed p net h c st).2 hrests
      omega

/-- The `batch_executed` latches set by a `blockFinalized` scan are never
cleared: the scan only ever turns them on. -/
theorem scanFinalized_latch_mono (p : Provider) (net : String) (B : Int) :
    ∀ (l : List Int) (st : StaticData), st.batchExecuted B = true →
      ((scanFinalized p net l st).2).batchExecuted B = true := by
  intro l
  induction l with
  | nil => intro st hl; exact hl
  | cons n ns ih =>
    intro st hl
    have hkeep : ({ st with
        batchExecuted := fun m => if m = n then true else st.batchExecuted m } :
          StaticData).batchExecuted B = true := by
      by_cases hbn : B = n
      · simp [hbn]
      · simp [hbn, hl]
    simp only [scanFinalized]
    split
    · exact hl
    · rename_i details heq
      split
      · rename_i hguard
        split
        · rename_i e st2 heq2
          have hm := ih _ hkeep
          rw [heq2] at hm
          exact hm
        · rename_i rest st2 heq2
          have hm := ih _ hkeep
          rw [heq2] at hm
          exact hm
      · exact ih st hl

/-- A set `batch_executed` latch silences its batch in every later scan
step: no event for that batch is delivered. -/
theorem scanFinalized_latched (p : Provider) (net : String) (B : Int)
    (hwb : wbDetails p) :
    ∀ (l : List Int) (st : StaticData), st.batchExecuted B = true →
      countFinList B (deliveredFin (scanFinalized p net l st).1) = 0 := by
  intro l
  induction l with
  | nil => intro st _; simp [scanFinalized, deliveredFin, countFinList]
  | cons n ns ih =>
    intro st hl
    have hkeep : ({ st with
        batchExecuted := fun m => if m = n then true else st.batchExecuted m } :
          StaticData).batchExecuted B = true := by
      by_cases hbn : B = n
      · simp [hbn]
      · simp [hbn, hl]
    simp only [scanFinalized]
    split
    · simp [deliveredFin, countFinList]
    · rename_i details heq
      split
      · rename_i hguard
        have hnB : n ≠ B := by
          intro hEq
          rw [hEq, hl] at hguard
          simp at hguard
        split
        · rename_i e st2 heq2
          simp [deliveredFin, countFinList]
        · rename_i rest st2 heq2
          have hnum : details.number = n := hwb n details heq
          have hb : (details.number == B) = false := by
            rw [hnum]
            exact beq_eq_false_iff_ne.mpr hnB
          have hrest := ih _ hkeep
          rw [heq2] at hrest
          simp only [deliveredFin, countFinList] at hrest ⊢
          simp [hb, hrest]
      · exact ih st hl

/-- One `blockFinalized` scan delivers at most one event per batch, and
delivering one sets that batch latch in the post-scan state. -/
theorem scanFinalized_once (p : Provider) (net : String) (B : Int)
    (hwb : wbDetails p) :
    ∀ (l : List Int) (st : StaticData),
      countFinList B (deliveredFin (scanFinalized p net l st).1) ≤ 1 ∧
      (1 ≤ countFinList B (deliveredFin (scanFinalized p net l st).1) →
        ((scanFinalized p net l st).2).batchExecuted B = true) := by
  intro l
  induction l with
  | nil =>
    intro st
    refine ⟨by simp [scanFinalized, deliveredFin, countFinList], fun hcnt => ?_⟩
    simp [scanFinalized, deliveredFin, countFinList] at hcnt
  | cons n ns ih =>
    intro st
    simp only [scanFinalized]
    split
    · refine ⟨by simp [deliveredFin, countFinList], fun hcnt => ?_⟩
      simp [deliveredFin, countFinList] at hcnt
    · rename_i details heq
      split
      · rename_i hguard
        split
        · rename_i e st2 heq2
          refine ⟨by simp [deliveredFin, countFinList], fun hcnt => ?_⟩
          simp [deliveredFin, countFinList] at hcnt
        · rename_i rest st2 heq2
          have hnum : details.number = n := hwb n details heq
          by_cases hbn : n = B
          · subst hbn
            have hkeep : ({ st with
                batchExecuted := fun m => if m = n then true else st.batchExecuted m } :
                  StaticData).batchExecuted n = true := by simp
            have h0 := scanFinalized_latched p net n hwb ns _ hkeep
            rw [heq2] at h0
            simp only [deliveredFin, countFinList] at h0
            have hmono := scanFinalized_latch_mono p net n ns _ hkeep
            rw [heq2] at hmono
            have hb : (details.number == n) = true := by
              rw [hnum]
              exact beq_self_eq_true n
            constructor
            · simp only [deliveredFin, countFinList]
              simp [hb, h0]
            · intro _
              exact hmono
          · have hb : (details.number == B) = false := by
              rw [hnum]
              exact beq_eq_false_iff_ne.mpr hbn
            have hih := ih ({ st with
              batchExecuted := fun m => if m = n then true else st.batchExecuted m })
            rw [heq2] at hih
            obtain ⟨hle, hset⟩ := hih
            simp only [deliveredFin, countFinList] at hle hset ⊢
            constructor
            · simp only [List.filter]
              simp [hb]
              simpa using hle
            · intro hcnt
              apply hset
              simpa [hb] using hcnt
      · exact ih st


/-- One `blockFinalized` invocation, seen through an arbitrary batch `B`:
a set latch yields zero `B`-events and survives; at most one `B`-event is
delivered; delivering one sets the latch for `B`. -/
theorem pollBlockFinalized_once (p : Provider) (net : String) (B : Int)
    (st : StaticData) (hwb : wbDetails p) :
    (st.batchExecuted B = true →
      countFinList B (deliveredFin (pollBlockFinalized p net st).1) = 0 ∧
      ((pollBlockFinalized p net st).2).batchExecuted B = true) ∧
    countFinList B (deliveredFin (pollBlockFinalized p net st).1) ≤ 1 ∧
    (1 ≤ countFinList B (deliveredFin (pollBlockFinalized p net st).1) →
      ((pollBlockFinalized p net st).2).batchExecuted B = true) := by
  cases hcb : p.getL1BatchNumber with
  | error e =>
    have hP : pollBlockFinalized p net st = (.error e, st) := by
      simp [pollBlockFinalized, hcb]
    rw [hP]
    refine ⟨fun hl => ⟨by simp [deliveredFin, countFinList], hl⟩,
      by simp [deliveredFin, countFinList], fun hcnt => ?_⟩
    exact absurd hcnt (by simp [deliveredFin, countFinList])
  | ok cb =>
    rcases hsc : scanFinalized p net
        (intRange (orElse0 st.lastFinalizedBatch (cb - 10) + 1) cb) st with ⟨r1, st1⟩
    cases r1 with
    | error e =>
      have hP : pollBlockFinalized p net st = (.error e, st1) := by
        simp only [pollBlockFinalized, hcb]
        rw [hsc]
      rw [hP]
      refine ⟨fun hl => ⟨by simp [deliveredFin, countFinList], ?_⟩,
        by simp [deliveredFin, countFinList], fun hcnt => ?_⟩
      · have hm := scanFinalized_latch_mono p net B
          (intRange (orElse0 st.lastFinalizedBatch (cb - 10) + 1) cb) st hl
        rw [hsc] at hm
        exact hm
      · exact absurd hcnt (by simp [deliveredFin, countFinList])
    | ok evs =>
      have hP : pollBlockFinalized p net st =
          (.ok evs, { st1 with lastFinalizedBatch := some cb }) := by
        simp only [pollBlockFinalized, hcb]
        rw [hsc]
      rw [hP]
      obtain ⟨hle, hset⟩ := scanFinalized_once p net B hwb
        (intRange (orElse0 st.lastFinalizedBatch (cb - 10) + 1) cb) st
      rw [hsc] at hle hset
      refine ⟨fun hl => ⟨?_, ?_⟩, hle, fun hcnt => hset hcnt⟩
      · have h0 := scanFinalized_latched p net B hwb
          (intRange (orElse0 st.lastFinalizedBatch (cb - 10) + 1) cb) st hl
        rw [hsc] at h0
        exact h0
      · have hm := scanFinalized_latch_mono p net B
          (intRange (orElse0 st.lastFinalizedBatch (cb - 10) + 1) cb) st hl
        rw [hsc] at hm
        exact hm

/-- Per-invocation counting splits off the head delivery (batch side). -/
theorem countFinEvents_cons (B : Int) (evs : List FinalizedEvent)
    (outs : List (List FinalizedEvent)) :
    countFinEvents B (evs :: outs) = countFinList B evs + countFinEvents B outs := by
  simp [countFinEvents, countFinList]

/-- Once the per-batch latch is set, no later `blockFinalized` invocation
of the run emits that batch, and the latch survives the run. -/
theorem runBlockFinalized_latched (net : String) (B : Int) :
    ∀ (ps : List Provider) (st : StaticData), (∀ q ∈ ps, wbDetails q) →
      st.batchExecuted B = true →
      countFinEvents B (runBlockFinalized net ps st).1 = 0 ∧
      ((runBlockFinalized net ps st).2).batchExecuted B = true := by
  intro ps
  induction ps with
  | nil => intro st _ hl; exact ⟨rfl, hl⟩
  | cons p rest ih =>
    intro st hwb hl
    have hwp : wbDetails p := hwb p (List.mem_cons_self _ _)
    have hrests : ∀ q ∈ rest, wbDetails q :=
      fun q hq => hwb q (List.mem_cons_of_mem _ hq)
    obtain ⟨hz0, hlat⟩ := (pollBlockFinalized_once p net B st hwp).1 hl
    have hrest := ih (pollBlockFinalized p net st).2 hrests hlat
    simp only [runBlockFinalized]
    refine ⟨?_, hrest.2⟩
    rw [countFinEvents_cons, hz0, hrest.1]

/-- Across any run of `blockFinalized` invocations against detail-faithful
providers, each batch number is emitted at most once. -/
theorem runBlockFinalized_atMostOnce (net : String) (B : Int) :
    ∀ (ps : List Provider) (st : StaticData), (∀ q ∈ ps, wbDetails q) →
      countFinEvents B (runBlockFinalized net ps st).1 ≤ 1 := by
  intro ps
  induction ps with
  | nil => intro st _; simp [runBlockFinalized, countFinEvents]
  | cons p rest ih =>
    intro st hwb
    have hwp : wbDetails p := hwb p (List.mem_cons_self _ _)
    have hrests : ∀ q ∈ rest, wbDetails q :=
      fun q hq => hwb q (List.mem_cons_of_mem _ hq)
    obtain ⟨hfirst, hle, hset⟩ := pollBlockFinalized_once p net B st hwp
    simp only [runBlockFinalized]
    rw [countFinEvents_cons]
    by_cases hc : 1 ≤ countFinList B (deliveredFin (pollBlockFinalized p net st).1)
    · have h0 :=
        (runBlockFinalized_latched net B rest (pollBlockFinalized p net st).2
          hrests (hset hc)).1
      omega
    · have := ih (pollBlockFinalized p net st).2 hrests
      omega

/-- `receiptProvider` honours the receipt contract. -/
theorem receiptProvider_wbReceipts : wbReceipts receiptProvider := by
  intro h r hr
  simp only [receiptProvider, constProvider] at hr
  injection hr with h1
  injection h1 with h2
  rw [← h2]

/-- `retryProvider` honours the batch-details contract. -/
theorem retryProvider_wbDetails : wbDetails retryProvider := by
  intro n d hd
  simp only [retryProvider, constProvider] at hd
  by_cases hn : n = 101
  · subst hn
    rw [if_pos rfl] at hd
    injection hd with h1
    rw [← h1]
    rfl
  · rw [if_neg hn] at hd
    injection hd with h1
    rw [← h1]

/-- C5: across every sequence of poll invocations against providers
honouring the receipt / batch-details contracts, the
`transactionConfirmed` trigger emits at most one event per transaction
hash and the `blockFinalized` trigger at most one event per batch number;
once the corresponding latch is set in cursor state, that hash or batch is
never emitted again. -/
theorem C5_one_shot (net hx : String) (B : Int)
    (steps : List (Provider × String × Int)) (ps : List Provider)
    (st1 st2 : StaticData)
    (hwbTx : ∀ s ∈ steps, wbReceipts s.1)
    (hwbFin : ∀ q ∈ ps, wbDetails q) :
    countTxEvents hx (runTransactionConfirmed net steps st1).1 ≤ 1 ∧
    countFinEvents B (runBlockFinalized net ps st2).1 ≤ 1 ∧
    (st1.txLatch hx = true →
      countTxEvents hx (runTransactionConfirmed net steps st1).1 = 0) ∧
    (st2.batchExecuted B = true →
      countFinEvents B (runBlockFinalized net ps st2).1 = 0) :=
  ⟨runTxConfirmed_atMostOnce net hx steps st1 hwbTx,
   runBlockFinalized_atMostOnce net B ps st2 hwbFin,
   fun hl => (runTxConfirmed_latched net hx steps st1 hwbTx hl).1,
   fun hl => (runBlockFinalized_latched net B ps st2 hwbFin hl).1⟩

/-- C5 witness: a run of two confirming polls on the same hash and two
finalizing polls on the same batch, each emitting at most once. -/
theorem C5_one_shot_witness :
    countTxEvents "0xabc" (runTransactionConfirmed "net"
      [(receiptProvider, "0xabc", 1), (receiptProvider, "0xabc", 1)] emptyStatic).1 ≤ 1 ∧
    countFinEvents 101 (runBlockFinalized "net"
      [retryProvider, retryProvider] emptyStatic).1 ≤ 1 ∧
    (emptyStatic.txLatch "0xabc" = true →
      countTxEvents "0xabc" (runTransactionConfirmed "net"
        [(receiptProvider, "0xabc", 1), (receiptProvider, "0xabc", 1)] emptyStatic).1 = 0) ∧
    (emptyStatic.batchExecuted 101 = true →
      countFinEvents 101 (runBlockFinalized "net"
        [retryProvider, retryProvider] emptyStatic).1 = 0) :=
  C5_one_shot "net" "0xabc" 101
    [(receiptProvider, "0xabc", 1), (receiptProvider, "0xabc", 1)]
    [retryProvider, retryProvider] emptyStatic emptyStatic
    (by
      intro s hs
      rcases List.mem_cons.mp hs with rfl | hs2
      · exact receiptProvider_wbReceipts
      · rcases List.mem_cons.mp hs2 with rfl | hs3
        · exact receiptProvider_wbReceipts
        · exact absurd hs3 (List.not_mem_nil s))
    (by
      intro q hq
      rcases List.mem_cons.mp hq with rfl | hq2
      · exact retryProvider_wbDetails
      · rcases List.mem_cons.mp hq2 with rfl | hq3
        · exact retryProvider_wbDetails
        · exact absurd hq3 (List.not_mem_nil q))

end ZkSyncNode
